import Mathlib

/-!
Verification development for the Pokemon multiplayer emulator backend
(session and relay engine). The definitions below are a shallow embedding
of `backend/models.py`, `backend/room_manager.py` and
`backend/websocket_handler.py`:

* Python dicts become association lists (`List (String × _)`) with
  insertion-order iteration, replace-in-place update (`upsert`) and key
  removal (`eraseKey`), matching CPython dict semantics.
* `datetime.utcnow()` values are taken as explicit `Int` parameters
  (`now`), since the wall clock is an input of the computation.
* `uuid.uuid4()`-generated identifiers are likewise explicit parameters.
* In-place mutation of `Player` / `Room` objects that are aliased from the
  registry maps is modelled by writing the updated object back at the key
  under which it was found.
* WebSocket sends are modelled as an emitted list of
  `(socket_id, message)` pairs; actual delivery over the transport is out
  of scope (the engine treats relay as fire-and-forget).
-/

set_option maxHeartbeats 1000000

/-- Player lifecycle status, from `models.PlayerStatus`. -/
inductive PlayerStatus where
  | CONNECTING
  | CONNECTED
  | READY
  | PLAYING
  | DISCONNECTED
deriving DecidableEq, Repr

/-- Opaque save-state blob stored on a player by the `save_state` handler
(`websocket_handler.py` lines 211-215): save data, screenshot and
timestamp as opaque optional values. -/
structure SaveBlob where
  saveData : Option String
  screenshot : Option String
  timestamp : Option String
deriving DecidableEq, Repr

/-- Player record, from `models.Player`. `id` and `joined_at` are the
`uuid4` / `utcnow` defaults, passed in explicitly by the constructing
operation. -/
structure Player where
  id : String
  name : String
  is_host : Bool
  status : PlayerStatus
  socket_id : Option String
  rom_loaded : Bool
  rom_name : Option String
  save_state : Option SaveBlob
  joined_at : Int
deriving DecidableEq, Repr

/-- Room record, from `models.Room`. The Python code constructs `Room()`
with every field left to its default and relies on `add_player` to set
`host_id` for the first member; the transient initial `host_id` is
modelled as the empty string. -/
structure Room where
  id : String
  host_id : String
  players : List Player
  max_players : Nat
  is_active : Bool
  link_cable_connected : Bool
  created_at : Int
  last_activity : Int
deriving DecidableEq, Repr

/-- Python's `str.upper()` on room codes, applied characterwise (room
codes are ASCII alphanumerics). Defined structurally over the character
list so that concrete lookups compute. -/
def pyUpper (s : String) : String := ⟨s.data.map Char.toUpper⟩

/-- Lookup in an association list: first entry with the given key, the
value `dict.get` returns. -/
def alookup {α : Type} : List (String × α) → String → Option α
  | [], _ => none
  | (k', v) :: rest, k => if k' = k then some v else alookup rest k

/-- Dict assignment `d[k] = v`: replace the value in place if the key is
present (CPython keeps the insertion position), else append. -/
def upsert {α : Type} : List (String × α) → String → α → List (String × α)
  | [], k, v => [(k, v)]
  | (k', v') :: rest, k, v =>
      if k' = k then (k, v) :: rest else (k', v') :: upsert rest k v

/-- Dict deletion `del d[k]`: drop the entry with the given key. -/
def eraseKey {α : Type} (m : List (String × α)) (k : String) : List (String × α) :=
  m.filter (fun e => e.1 != k)

/-- Remove the first entry whose value is `v`. This is the socket-index
scrub in `RoomManager.leave_room` (lines 113-115): `next(...)` over
`socket_to_player.items()` finds the first socket bound to the player and
only that entry is deleted. -/
def eraseFirstVal : List (String × String) → String → List (String × String)
  | [], _ => []
  | (k, v') :: rest, v =>
      if v' = v then rest else (k, v') :: eraseFirstVal rest v

/-- Python's `next((p for p in players if p.id == player_id), None)`:
first player with the given id (`Room.get_player`). -/
def getPlayerL : List Player → String → Option Player
  | [], _ => none
  | p :: rest, pid => if p.id = pid then some p else getPlayerL rest pid

/-- Mutation of the first player object with the given id inside a room's
member list, modelling Python's in-place update of the object returned by
`Room.get_player`. -/
def updateFirst : List Player → String → (Player → Player) → List Player
  | [], _, _ => []
  | p :: rest, pid, f =>
      if p.id = pid then f p :: rest else p :: updateFirst rest pid f

/-- `Room.get_player` (`models.py` lines 77-78). -/
def Room.get_player (r : Room) (pid : String) : Option Player :=
  getPlayerL r.players pid

/-- `Room.add_player` (`models.py` lines 45-60). Returns the updated
room, the (possibly host-promoted) player object that Python mutates in
place, and the success flag. -/
def Room.add_player (r : Room) (p : Player) (now : Int) : Room × Player × Bool :=
  if r.players.length ≥ r.max_players then (r, p, false)
  else
    let p' := if r.players.isEmpty then { p with is_host := true } else p
    let r' := { r with
      host_id := if r.players.isEmpty then p.id else r.host_id,
      players := r.players ++ [p'],
      last_activity := now }
    let r'' := if r'.players.length = 2 then { r' with link_cable_connected := true } else r'
    (r'', p', true)

/-- `Room.remove_player` (`models.py` lines 62-75). Returns the updated
room and whether the room is now empty. -/
def Room.remove_player (r : Room) (pid : String) (now : Int) : Room × Bool :=
  let ps := r.players.filter (fun p => p.id != pid)
  let r' := { r with
    players := ps,
    last_activity := now,
    link_cable_connected := if ps.length < 2 then false else r.link_cable_connected }
  let r'' :=
    match ps with
    | [] => r'
    | q :: qs =>
        if r.host_id = pid then
          { r' with players := { q with is_host := true } :: qs, host_id := q.id }
        else r'
  (r'', ps.isEmpty)

/-- Registry state of `RoomManager`: the room table and the two auxiliary
indexes (`room_manager.py` lines 10-13). -/
structure MState where
  rooms : List (String × Room)
  player_to_room : List (String × String)
  socket_to_player : List (String × String)
deriving DecidableEq, Repr

/-- Fresh `RoomManager()` state. -/
def initState : MState := ⟨[], [], []⟩

/-- Python truthiness of the optional `rom_name` argument: `if rom_name:`
is false both for `None` and for the empty string. -/
def romTruthy (rom : Option String) : Bool :=
  match rom with
  | none => false
  | some s => if s = "" then false else true

/-- `RoomManager.create_room` (lines 53-68). `rid`/`pid` are the ids that
`uuid4` generates for the new room and host, `now` the current time. -/
def create_room (st : MState) (rid pid hostName : String) (rom : Option String)
    (now : Int) : MState × Room × Player :=
  let room0 : Room :=
    { id := rid, host_id := "", players := [], max_players := 2,
      is_active := true, link_cable_connected := false, created_at := now,
      last_activity := now }
  let host0 : Player :=
    { id := pid, name := hostName, is_host := true,
      status := if romTruthy rom then .READY else .CONNECTING, socket_id := none,
      rom_loaded := romTruthy rom, rom_name := rom, save_state := none, joined_at := now }
  let res := room0.add_player host0 now
  let room1 := res.1
  let host1 := res.2.1
  ({ st with rooms := upsert st.rooms room1.id room1,
             player_to_room := upsert st.player_to_room host1.id room1.id },
   room1, host1)

/-- `RoomManager.join_room` (lines 70-93). Returns the updated state, the
optional room and player, and the message string. -/
def join_room (st : MState) (code pid playerName : String) (rom : Option String)
    (now : Int) : MState × Option Room × Option Player × String :=
  match alookup st.rooms (pyUpper code) with
  | none => (st, none, none, "Room not found")
  | some room =>
    if room.is_active = false then (st, none, none, "Room is no longer active")
    else if room.players.length ≥ room.max_players then (st, none, none, "Room is full")
    else
      let player : Player :=
        { id := pid, name := playerName, is_host := false,
          status := if romTruthy rom then .READY else .CONNECTING, socket_id := none,
          rom_loaded := romTruthy rom, rom_name := rom, save_state := none, joined_at := now }
      let res := room.add_player player now
      let room' := res.1
      let player' := res.2.1
      if res.2.2 then
        ({ st with rooms := upsert st.rooms (pyUpper code) room',
                   player_to_room := upsert st.player_to_room player'.id room'.id },
         some room', some player', "Successfully joined room")
      else (st, none, none, "Failed to join room")

/-- `RoomManager.leave_room` (lines 95-122). Returns the updated state and
the room if it still exists. The `if not room_id` falsiness test also
rejects an empty-string room id. -/
def leave_room (st : MState) (pid : String) (now : Int) : MState × Option Room :=
  match alookup st.player_to_room pid with
  | none => (st, none)
  | some rid =>
    if rid = "" then (st, none)
    else
      match alookup st.rooms rid with
      | none => (st, none)
      | some room =>
        let res := room.remove_player pid now
        let room' := res.1
        let isEmpty := res.2
        let st1 : MState := { st with
          rooms := upsert st.rooms rid room',
          player_to_room := eraseKey st.player_to_room pid,
          socket_to_player := eraseFirstVal st.socket_to_player pid }
        if isEmpty then ({ st1 with rooms := eraseKey st1.rooms rid }, none)
        else (st1, some room')

/-- `RoomManager.get_room` (lines 124-126): case-insensitive code lookup. -/
def get_room (st : MState) (code : String) : Option Room :=
  alookup st.rooms (pyUpper code)

/-- `RoomManager.get_player_room` (lines 128-131). The Python ternary
`... if room_id else None` makes an empty-string room id resolve to
nothing. -/
def get_player_room (st : MState) (pid : String) : Option Room :=
  match alookup st.player_to_room pid with
  | none => none
  | some rid => if rid = "" then none else alookup st.rooms rid

/-- `RoomManager.update_player_status` (lines 144-156). -/
def update_player_status (st : MState) (pid : String) (status : PlayerStatus)
    (now : Int) : MState × Bool :=
  match alookup st.player_to_room pid with
  | none => (st, false)
  | some rid =>
    if rid = "" then (st, false)
    else
      match alookup st.rooms rid with
      | none => (st, false)
      | some room =>
        match room.get_player pid with
        | none => (st, false)
        | some _ =>
          let room' := { room with
            players := updateFirst room.players pid (fun q => { q with status := status }),
            last_activity := now }
          ({ st with rooms := upsert st.rooms rid room' }, true)

/-- `RoomManager.connect_socket` (lines 158-174): bind a socket id to a
player, set the handle, force status `CONNECTED`, bump activity. -/
def connect_socket (st : MState) (sid pid : String) (now : Int) : MState × Bool :=
  match alookup st.player_to_room pid with
  | none => (st, false)
  | some rid =>
    if rid = "" then (st, false)
    else
      match alookup st.rooms rid with
      | none => (st, false)
      | some room =>
        match room.get_player pid with
        | none => (st, false)
        | some _ =>
          let room' := { room with
            players := updateFirst room.players pid
              (fun q => { q with socket_id := some sid, status := .CONNECTED }),
            last_activity := now }
          ({ st with rooms := upsert st.rooms rid room',
                     socket_to_player := upsert st.socket_to_player sid pid }, true)

/-- `RoomManager.disconnect_socket` (lines 176-195): clear the handle, set
status `DISCONNECTED`, drop the socket index entry. The player stays in
its room, and `last_activity` is not touched. -/
def disconnect_socket (st : MState) (sid : String) : MState × Option (Room × Player) :=
  match alookup st.socket_to_player sid with
  | none => (st, none)
  | some pid =>
    if pid = "" then (st, none)
    else
      match alookup st.player_to_room pid with
      | none => (st, none)
      | some rid =>
        if rid = "" then (st, none)
        else
          match alookup st.rooms rid with
          | none => (st, none)
          | some room =>
            match room.get_player pid with
            | none => (st, none)
            | some p =>
              let p' := { p with socket_id := none, status := .DISCONNECTED }
              let room' := { room with
                players := updateFirst room.players pid
                  (fun q => { q with socket_id := none, status := .DISCONNECTED }) }
              ({ st with rooms := upsert st.rooms rid room',
                         socket_to_player := eraseKey st.socket_to_player sid },
               some (room', p'))

/-- `RoomManager.get_player_by_socket` (lines 197-211). -/
def get_player_by_socket (st : MState) (sid : String) : Option (Room × Player) :=
  match alookup st.socket_to_player sid with
  | none => none
  | some pid =>
    if pid = "" then none
    else
      match get_player_room st pid with
      | none => none
      | some room =>
        match room.get_player pid with
        | none => none
        | some p => some (room, p)

/-- `RoomManager.remove_room` (lines 213-225): call `leave_room` for every
member of a snapshot copy of the member list, then delete the room if it
is still registered. -/
def remove_room (st : MState) (rid : String) (now : Int) : MState :=
  match alookup st.rooms rid with
  | none => st
  | some room =>
    let st' := room.players.foldl (fun s p => (leave_room s p.id now).1) st
    if (alookup st'.rooms rid).isSome then
      { st' with rooms := eraseKey st'.rooms rid }
    else st'

/-- One cycle of `RoomManager._cleanup_inactive_rooms` (lines 31-46):
collect the rooms whose `last_activity` is older than the one-hour TTL
(3600 seconds) or whose active flag is false, then `remove_room` each. -/
def sweep_cycle (st : MState) (now : Int) : MState :=
  let cutoff := now - 3600
  let toRemove := (st.rooms.filter
    (fun e => decide (e.2.last_activity < cutoff) || !e.2.is_active)).map (·.1)
  toRemove.foldl (fun s rid => remove_room s rid now) st

/-- Registry operations, for stating properties over arbitrary call
sequences against `RoomManager`. Identifier and clock arguments carry the
values Python draws from `uuid4` / `utcnow`. -/
inductive Op where
  | create (rid pid hostName : String) (rom : Option String) (now : Int)
  | join (code pid playerName : String) (rom : Option String) (now : Int)
  | leave (pid : String) (now : Int)
  | bind (sid pid : String) (now : Int)
  | unbind (sid : String)
  | status (pid : String) (s : PlayerStatus) (now : Int)
  | removeRoom (rid : String) (now : Int)
deriving DecidableEq, Repr

/-- Apply one registry operation, discarding its return value. -/
def applyOp (st : MState) : Op → MState
  | .create rid pid hostName rom now => (create_room st rid pid hostName rom now).1
  | .join code pid playerName rom now => (join_room st code pid playerName rom now).1
  | .leave pid now => (leave_room st pid now).1
  | .bind sid pid now => (connect_socket st sid pid now).1
  | .unbind sid => (disconnect_socket st sid).1
  | .status pid s now => (update_player_status st pid s now).1
  | .removeRoom rid now => remove_room st rid now

/-- Apply a sequence of registry operations. -/
def applyOps (st : MState) (ops : List Op) : MState :=
  ops.foldl applyOp st

/-!
Relay Dispatcher (`websocket_handler.py`). Inbound message payloads are
JSON values; a handler reads fields with `data.get(key)`, which raises
`AttributeError` when the payload is not a mapping. That fallible read is
modelled in an `Except Unit` monad, and the `try`/`except` of
`WebSocketManager.handle_message` (lines 52-80) is the catch at the
dispatch boundary. In every handler each `data.get` happens before any
registry mutation or send, as in the source, so the caught state is the
inbound state. Outbound messages are reduced to their type tag plus the
fields the relay logic itself computes; opaque snapshot payloads such as
`room.dict()` are not tracked.
-/

/-- Outbound message as emitted by the dispatcher, reduced to type tag and
relay-relevant fields. -/
inductive OutMsg where
  | errorMsg (text : String)
  | pong
  | roomJoined
  | playerJoined
  | playerLeft (playerName : String)
  | linkCable (action : Option String) (payload : Option String)
      (fromPlayer : String) (timestamp : Option String)
  | statusUpdated (pid playerName statusText : String)
  | saveResp (action : String) (success : Bool)
deriving DecidableEq, Repr

/-- Message `data` payload: either a JSON object (field lookup returns an
optional opaque value) or a non-mapping value, on which `.get` raises. -/
inductive DataVal where
  | obj (get : String → Option String)
  | nonDict

/-- Inbound transport message after `json.loads`: either a non-mapping
top-level value (`.get('type')` raises) or an object with its optional
`type` tag and its `data` payload (defaulting to an empty object). -/
inductive Inbound where
  | bad
  | msg (ty : Option String) (d : DataVal)

/-- `data.get(key)` (`dict.get`): returns the field, or raises when the
payload is not a mapping. -/
def dataGet (d : DataVal) (k : String) : Except Unit (Option String) :=
  match d with
  | .obj g => .ok (g k)
  | .nonDict => .error ()

/-- `WebSocketManager.broadcast_to_room` (lines 38-50): send to every
member whose socket handle is truthy and differs from the excluded one.
The room is refetched through `get_room`; a missing room is a no-op. -/
def broadcast_to_room (st : MState) (rid : String) (msg : OutMsg)
    (exclude : Option String) : List (String × OutMsg) :=
  match get_room st rid with
  | none => []
  | some room =>
    room.players.filterMap (fun p =>
      match p.socket_id with
      | some s => if s ≠ "" ∧ some s ≠ exclude then some (s, msg) else none
      | none => none)

/-- First member other than the sender holding a truthy socket handle
(`websocket_handler.py` lines 149-154). -/
def findOther : List Player → String → Option (Player × String)
  | [], _ => none
  | p :: rest, senderId =>
    match p.socket_id with
    | some s =>
        if p.id ≠ senderId ∧ s ≠ "" then some (p, s) else findOther rest senderId
    | none => findOther rest senderId

/-- `WebSocketManager._handle_join_room` (lines 82-117). A missing or
falsy `player_id` and a failed `connect_socket` each produce an error
reply to the sender only. -/
def handle_join_room (st : MState) (sid : String) (now : Int) (d : DataVal) :
    Except Unit (MState × List (String × OutMsg)) := do
  let pid? ← dataGet d "player_id"
  match pid? with
  | none => .ok (st, [(sid, .errorMsg "Player ID required")])
  | some pid =>
    if pid = "" then .ok (st, [(sid, .errorMsg "Player ID required")])
    else
      let res := connect_socket st sid pid now
      if res.2 then
        match get_player_room res.1 pid with
        | some room =>
            .ok (res.1, broadcast_to_room res.1 room.id .playerJoined (some sid)
              ++ [(sid, .roomJoined)])
        | none => .ok (res.1, [])
      else .ok (res.1, [(sid, .errorMsg "Failed to join room")])

/-- `WebSocketManager._handle_leave_room` (lines 119-132). -/
def handle_leave_room (st : MState) (sid : String) :
    MState × List (String × OutMsg) :=
  match disconnect_socket st sid with
  | (st', some rp) =>
      (st', broadcast_to_room st' rp.1.id (.playerLeft rp.2.name) (some sid))
  | (st', none) => (st', [])

/-- `WebSocketManager._handle_link_cable_data` (lines 134-175). -/
def handle_link_cable_data (st : MState) (sid : String) (d : DataVal) :
    Except Unit (MState × List (String × OutMsg)) :=
  match get_player_by_socket st sid with
  | none => .ok (st, [])
  | some (room, sender) =>
    if room.link_cable_connected = false then
      .ok (st, [(sid, .errorMsg "Link cable not connected")])
    else
      match findOther room.players sender.id with
      | none => .ok (st, [(sid, .errorMsg "No other player connected")])
      | some (_, s) => do
          let act ← dataGet d "action"
          let pay ← dataGet d "payload"
          let ts ← dataGet d "timestamp"
          .ok (st, [(s, .linkCable act pay sender.name ts)])

/-- Status names of the `PlayerStatus` enum, for `hasattr(PlayerStatus,
status.upper())`. -/
def statusNames : List String :=
  ["CONNECTING", "CONNECTED", "READY", "PLAYING", "DISCONNECTED"]

/-- `PlayerStatus(value)`: enum lookup by value string. -/
def statusOfValue : String → Option PlayerStatus
  | "connecting" => some .CONNECTING
  | "connected" => some .CONNECTED
  | "ready" => some .READY
  | "playing" => some .PLAYING
  | "disconnected" => some .DISCONNECTED
  | _ => none

/-- `WebSocketManager._handle_player_status` (lines 177-198). A failed
enum value lookup would raise `ValueError` (unreachable after the
`hasattr` guard). -/
def handle_player_status (st : MState) (sid : String) (now : Int) (d : DataVal) :
    Except Unit (MState × List (String × OutMsg)) :=
  match get_player_by_socket st sid with
  | none => .ok (st, [])
  | some (room, player) => do
    let s? ← dataGet d "status"
    match s? with
    | none => .ok (st, [])
    | some s =>
      if s = "" then .ok (st, [])
      else if statusNames.contains (pyUpper s) then
        match statusOfValue s.toLower with
        | none => .error ()
        | some ns =>
          let res := update_player_status st player.id ns now
          if res.2 then
            .ok (res.1, broadcast_to_room res.1 room.id
              (.statusUpdated player.id player.name s) none)
          else .ok (res.1, [])
      else .ok (st, [])

/-- Store a save blob on the first player with the given id in its
registered room, modelling the in-place `player.save_state = {...}`
assignment. -/
def set_save_state (st : MState) (pid : String) (blob : SaveBlob) : MState :=
  match alookup st.player_to_room pid with
  | none => st
  | some rid =>
    if rid = "" then st
    else
      match alookup st.rooms rid with
      | none => st
      | some room =>
        let room' := { room with
          players := updateFirst room.players pid
            (fun q => { q with save_state := some blob }) }
        { st with rooms := upsert st.rooms rid room' }

/-- `WebSocketManager._handle_save_state` (lines 200-245). -/
def handle_save_state (st : MState) (sid : String) (d : DataVal) :
    Except Unit (MState × List (String × OutMsg)) :=
  match get_player_by_socket st sid with
  | none => .ok (st, [])
  | some (_, player) => do
    let act? ← dataGet d "action"
    if act? = some "save" then do
      let sd ← dataGet d "save_data"
      let sc ← dataGet d "screenshot"
      let ts ← dataGet d "timestamp"
      .ok (set_save_state st player.id ⟨sd, sc, ts⟩, [(sid, .saveResp "save" true)])
    else if act? = some "load" then
      match player.save_state with
      | some _ => .ok (st, [(sid, .saveResp "load" true)])
      | none => .ok (st, [(sid, .saveResp "load" false)])
    else .ok (st, [])

/-- Message routing of `WebSocketManager.handle_message` (lines 60-73),
inside the try block. An unrecognized or missing type is logged and
ignored. -/
def routeMsg (st : MState) (sid : String) (now : Int) (ty : Option String)
    (d : DataVal) : Except Unit (MState × List (String × OutMsg)) :=
  match ty with
  | some t =>
    if t = "join_room" then handle_join_room st sid now d
    else if t = "leave_room" then .ok (handle_leave_room st sid)
    else if t = "link_cable_data" then handle_link_cable_data st sid d
    else if t = "player_status" then handle_player_status st sid now d
    else if t = "save_state" then handle_save_state st sid d
    else if t = "ping" then .ok (st, [(sid, .pong)])
    else .ok (st, [])
  | none => .ok (st, [])

/-- `WebSocketManager.handle_message` (lines 52-80): route the message;
any exception is caught at this boundary and converted into a generic
error reply to the sender. The dispatcher never touches the connection
table, so the sender's transport survives every branch. -/
def handle_message (st : MState) (sid : String) (now : Int) :
    Inbound → MState × List (String × OutMsg)
  | .bad => (st, [(sid, .errorMsg "Failed to process message")])
  | .msg ty d =>
    match routeMsg st sid now ty d with
    | .ok r => r
    | .error _ => (st, [(sid, .errorMsg "Failed to process message")])

/-- Arguments of one `JoinRoom` call, for properties over sequences of
join attempts. -/
structure JoinCall where
  code : String
  pid : String
  playerName : String
  rom : Option String
  now : Int
deriving DecidableEq, Repr

/-- Apply a sequence of `join_room` calls, keeping only the state. -/
def applyJoins (st : MState) (calls : List JoinCall) : MState :=
  calls.foldl (fun s c => (join_room s c.code c.pid c.playerName c.rom c.now).1) st

/-- Well-formedness of a registry state: dict keys are unique (true of
every Python dict), rooms are stored under their own non-empty id, member
ids are unique inside a room, and the two indexes agree with membership
in both directions. States reachable through the manager's API satisfy
this; it is the induction hypothesis for the sweep and leave lemmas. -/
def RegistryInv (st : MState) : Prop :=
  (st.rooms.map Prod.fst).Nodup ∧
  (st.player_to_room.map Prod.fst).Nodup ∧
  (st.socket_to_player.map Prod.fst).Nodup ∧
  (∀ e ∈ st.rooms, e.2.id = e.1 ∧ e.1 ≠ "") ∧
  (∀ e ∈ st.rooms, (e.2.players.map Player.id).Nodup) ∧
  (∀ e ∈ st.player_to_room,
    ∃ er ∈ st.rooms, er.1 = e.2 ∧ ∃ pl ∈ er.2.players, pl.id = e.1) ∧
  (∀ er ∈ st.rooms, ∀ pl ∈ er.2.players, (pl.id, er.1) ∈ st.player_to_room) ∧
  (∀ e ∈ st.socket_to_player,
    ∃ er ∈ st.rooms, ∃ pl ∈ er.2.players, pl.id = e.2 ∧ pl.socket_id = some e.1)

/-- Concrete two-player state used by the witness theorems: Ash hosts room
RAB with Misty as second member, both with live bound connections. -/
def playerA : Player :=
  { id := "P1", name := "Ash", is_host := true, status := .CONNECTED,
    socket_id := some "S1", rom_loaded := false, rom_name := none,
    save_state := none, joined_at := 0 }

/-- Second member of the witness room. -/
def playerB : Player :=
  { id := "P2", name := "Misty", is_host := false, status := .CONNECTED,
    socket_id := some "S2", rom_loaded := false, rom_name := none,
    save_state := none, joined_at := 1 }

/-- Witness room at capacity with the link established. -/
def roomAB : Room :=
  { id := "RAB", host_id := "P1", players := [playerA, playerB],
    max_players := 2, is_active := true, link_cable_connected := true,
    created_at := 0, last_activity := 1 }

/-- Witness registry state for the full room. -/
def stAB : MState :=
  { rooms := [("RAB", roomAB)],
    player_to_room := [("P1", "RAB"), ("P2", "RAB")],
    socket_to_player := [("S1", "P1"), ("S2", "P2")] }

/-- Sole member of the stale witness room. -/
def playerStale : Player :=
  { id := "P9", name := "Red", is_host := true, status := .CONNECTING,
    socket_id := none, rom_loaded := false, rom_name := none,
    save_state := none, joined_at := 0 }

/-- Witness room whose last activity lies two hours before the sweep. -/
def roomStale : Room :=
  { id := "R9", host_id := "P9", players := [playerStale], max_players := 2,
    is_active := true, link_cable_connected := false, created_at := 0,
    last_activity := 0 }

/-- Witness registry state holding only the stale room. -/
def stStale : MState :=
  { rooms := [("R9", roomStale)], player_to_room := [("P9", "R9")],
    socket_to_player := [] }

/-- Witness message payload carrying only an action field. -/
def gAction : String → Option String :=
  fun k => if k = "action" then some "trade_request" else none

/-- Witness message payload with no fields. -/
def gEmpty : String → Option String := fun _ => none

/-- Witness message payload carrying only a player id. -/
def gP1 : String → Option String :=
  fun k => if k = "player_id" then some "P1" else none

/-- Witness joiner supplying an image id. -/
def playerJoin : Player :=
  { id := "P3", name := "Blue", is_host := false, status := .READY,
    socket_id := none, rom_loaded := true, rom_name := some "blue",
    save_state := none, joined_at := 3 }

/-! Helper lemmas about the dict and list primitives. -/

theorem alookup_upsert {α : Type} (m : List (String × α)) (k : String) (v : α)
    (k' : String) :
    alookup (upsert m k v) k' = if k = k' then some v else alookup m k' := by
  induction m with
  | nil => by_cases h : k = k' <;> simp [upsert, alookup, h]
  | cons e rest ih =>
    obtain ⟨a, b⟩ := e
    by_cases hak : a = k
    · subst hak
      by_cases h : a = k' <;> simp [upsert, alookup, h]
    · by_cases h1 : a = k'
      · subst h1
        have : ¬ k = a := fun hh => hak hh.symm
        simp [upsert, alookup, hak, this]
      · simp [upsert, alookup, hak, h1, ih]

theorem mem_upsert_self {α : Type} (m : List (String × α)) (k : String) (v : α) :
    (k, v) ∈ upsert m k v := by
  induction m with
  | nil => simp [upsert]
  | cons e rest ih =>
    obtain ⟨a, b⟩ := e
    by_cases hak : a = k <;> simp [upsert, hak, ih]

theorem mem_upsert_elim {α : Type} {m : List (String × α)} {k : String} {v : α}
    {e : String × α} (h : e ∈ upsert m k v) : e = (k, v) ∨ e ∈ m := by
  induction m with
  | nil => simpa [upsert] using h
  | cons f rest ih =>
    obtain ⟨a, b⟩ := f
    by_cases hak : a = k
    · simp only [upsert, if_pos hak, List.mem_cons] at h
      rcases h with h | h
      · exact Or.inl h
      · exact Or.inr (List.mem_cons_of_mem _ h)
    · simp only [upsert, if_neg hak, List.mem_cons] at h
      rcases h with h | h
      · exact Or.inr (by simp [h])
      · rcases ih h with h' | h'
        · exact Or.inl h'
        · exact Or.inr (List.mem_cons_of_mem _ h')

theorem mem_upsert_of_ne {α : Type} {m : List (String × α)} {k : String} {v : α}
    {e : String × α} (h : e ∈ m) (hne : e.1 ≠ k) : e ∈ upsert m k v := by
  induction m with
  | nil => simp at h
  | cons f rest ih =>
    obtain ⟨a, b⟩ := f
    rcases List.mem_cons.mp h with h' | h'
    · subst h'
      simp only [upsert]
      rw [if_neg (by simpa using hne)]
      exact List.mem_cons_self _ _
    · by_cases hak : a = k
      · simp [upsert, hak, List.mem_cons_of_mem _ h']
      · simp [upsert, hak, List.mem_cons, ih h']

theorem keys_mem_upsert {α : Type} {m : List (String × α)} {k : String} {v : α}
    {x : String} (h : x ∈ (upsert m k v).map Prod.fst) :
    x = k ∨ x ∈ m.map Prod.fst := by
  rcases List.mem_map.mp h with ⟨e, he, hx⟩
  rcases mem_upsert_elim he with h' | h'
  · subst h'; exact Or.inl hx.symm
  · exact Or.inr (hx ▸ List.mem_map_of_mem _ h')

theorem nodup_keys_upsert {α : Type} {m : List (String × α)} {k : String} {v : α}
    (h : (m.map Prod.fst).Nodup) : ((upsert m k v).map Prod.fst).Nodup := by
  induction m with
  | nil => simp [upsert]
  | cons e rest ih =>
    obtain ⟨a, b⟩ := e
    simp only [List.map_cons, List.nodup_cons] at h
    by_cases hak : a = k
    · subst hak
      simpa [upsert, List.nodup_cons] using h
    · simp only [upsert, if_neg hak, List.map_cons, List.nodup_cons]
      refine ⟨fun hmem => ?_, ih h.2⟩
      rcases keys_mem_upsert hmem with h' | h'
      · exact hak h'
      · exact h.1 h'

theorem mem_eraseKey {α : Type} {m : List (String × α)} {k : String}
    {e : String × α} : e ∈ eraseKey m k ↔ e ∈ m ∧ e.1 ≠ k := by
  simp [eraseKey, List.mem_filter, bne_iff_ne]

theorem eraseKey_sublist {α : Type} (m : List (String × α)) (k : String) :
    (eraseKey m k).Sublist m :=
  List.filter_sublist m

theorem alookup_eraseKey {α : Type} (m : List (String × α)) (k k' : String) :
    alookup (eraseKey m k) k' = if k = k' then none else alookup m k' := by
  induction m with
  | nil => by_cases h : k = k' <;> simp [eraseKey, alookup, h]
  | cons e rest ih =>
    obtain ⟨a, b⟩ := e
    by_cases hak : a = k
    · subst hak
      have : eraseKey ((a, b) :: rest) a = eraseKey rest a := by
        simp [eraseKey]
      rw [this, ih]
      by_cases h : a = k' <;> simp [alookup, h]
    · have : eraseKey ((a, b) :: rest) k = (a, b) :: eraseKey rest k := by
        simp [eraseKey, hak]
      rw [this]
      by_cases h1 : a = k'
      · subst h1
        have : ¬ k = a := fun hh => hak hh.symm
        simp [alookup, this]
      · simp [alookup, h1, ih]

theorem alookup_mem {α : Type} {m : List (String × α)} {k : String} {v : α}
    (h : alookup m k = some v) : (k, v) ∈ m := by
  induction m with
  | nil => simp [alookup] at h
  | cons e rest ih =>
    obtain ⟨a, b⟩ := e
    by_cases hak : a = k
    · subst hak
      have ha : alookup ((a, b) :: rest) a = some b := by simp [alookup]
      rw [ha] at h
      injection h with h
      subst h
      exact List.mem_cons_self _ _
    · simp only [alookup, if_neg hak] at h
      exact List.mem_cons_of_mem _ (ih h)

theorem alookup_isSome_of_mem {α : Type} {m : List (String × α)} {k : String}
    {v : α} (h : (k, v) ∈ m) : (alookup m k).isSome := by
  induction m with
  | nil => simp at h
  | cons e rest ih =>
    obtain ⟨a, b⟩ := e
    rcases List.mem_cons.mp h with h' | h'
    · cases h'
      simp [alookup]
    · by_cases hak : a = k <;> simp [alookup, hak, ih h']

theorem alookup_none_not_mem {α : Type} {m : List (String × α)} {k : String}
    {v : α} (h : alookup m k = none) : (k, v) ∉ m := by
  intro hmem
  have := alookup_isSome_of_mem hmem
  simp [h] at this

theorem alookup_of_mem_nodup {α : Type} {m : List (String × α)} {k : String}
    {v : α} (hn : (m.map Prod.fst).Nodup) (h : (k, v) ∈ m) :
    alookup m k = some v := by
  induction m with
  | nil => simp at h
  | cons e rest ih =>
    obtain ⟨a, b⟩ := e
    simp only [List.map_cons, List.nodup_cons] at hn
    rcases List.mem_cons.mp h with h' | h'
    · cases h'
      simp [alookup]
    · have hak : a ≠ k := by
        intro hh
        subst hh
        exact hn.1 (List.mem_map_of_mem _ h')
      simp [alookup, hak, ih hn.2 h']

theorem mem_val_unique {α : Type} {m : List (String × α)} {k : String}
    {v1 v2 : α} (hn : (m.map Prod.fst).Nodup) (h1 : (k, v1) ∈ m)
    (h2 : (k, v2) ∈ m) : v1 = v2 := by
  have e1 := alookup_of_mem_nodup hn h1
  have e2 := alookup_of_mem_nodup hn h2
  rw [e1] at e2
  exact Option.some.inj e2

theorem eraseFirstVal_sublist (m : List (String × String)) (v : String) :
    (eraseFirstVal m v).Sublist m := by
  induction m with
  | nil => simp [eraseFirstVal]
  | cons e rest ih =>
    obtain ⟨a, b⟩ := e
    by_cases hb : b = v
    · rw [eraseFirstVal, if_pos hb]
      exact List.sublist_cons_self (a, b) rest
    · rw [eraseFirstVal, if_neg hb]
      exact List.Sublist.cons₂ (a, b) ih

theorem mem_eraseFirstVal_of_ne {m : List (String × String)} {v : String}
    {e : String × String} (h : e ∈ m) (hne : e.2 ≠ v) :
    e ∈ eraseFirstVal m v := by
  induction m with
  | nil => simp at h
  | cons f rest ih =>
    obtain ⟨a, b⟩ := f
    rcases List.mem_cons.mp h with h' | h'
    · subst h'
      simp only [eraseFirstVal]
      rw [if_neg (by simpa using hne)]
      exact List.mem_cons_self _ _
    · by_cases hb : b = v
      · simpa [eraseFirstVal, hb] using h'
      · simpa [eraseFirstVal, hb] using Or.inr (ih h')

theorem eraseFirstVal_ne_val {m : List (String × String)} {v : String}
    (hk : (m.map Prod.fst).Nodup)
    (hone : ∀ e ∈ m, ∀ e' ∈ m, e.2 = v → e'.2 = v → e = e') :
    ∀ e ∈ eraseFirstVal m v, e.2 ≠ v := by
  induction m with
  | nil => simp [eraseFirstVal]
  | cons f rest ih =>
    obtain ⟨a, b⟩ := f
    simp only [List.map_cons, List.nodup_cons] at hk
    by_cases hb : b = v
    · subst hb
      intro e he hev
      have he' : e ∈ rest := by simpa [eraseFirstVal] using he
      have : e = (a, b) :=
        hone e (List.mem_cons_of_mem _ he') (a, b) (List.mem_cons_self _ _) hev rfl
      subst this
      exact hk.1 (List.mem_map_of_mem _ he')
    · intro e he hev
      rcases List.mem_cons.mp (by simpa [eraseFirstVal, hb] using he) with h' | h'
      · subst h'
        exact hb hev
      · exact ih hk.2
          (fun x hx y hy hxv hyv =>
            hone x (List.mem_cons_of_mem _ hx) y (List.mem_cons_of_mem _ hy) hxv hyv)
          e h' hev

theorem getPlayerL_some {ps : List Player} {pid : String} {p : Player}
    (h : getPlayerL ps pid = some p) : p ∈ ps ∧ p.id = pid := by
  induction ps with
  | nil => simp [getPlayerL] at h
  | cons q rest ih =>
    by_cases hq : q.id = pid
    · simp only [getPlayerL, if_pos hq] at h
      injection h with h
      subst h
      exact ⟨List.mem_cons_self _ _, hq⟩
    · simp only [getPlayerL, if_neg hq] at h
      rcases ih h with ⟨h1, h2⟩
      exact ⟨List.mem_cons_of_mem _ h1, h2⟩

theorem getPlayerL_isSome_of_mem {ps : List Player} {pid : String} {p : Player}
    (h : p ∈ ps) (hid : p.id = pid) : (getPlayerL ps pid).isSome := by
  induction ps with
  | nil => simp at h
  | cons q rest ih =>
    by_cases hq : q.id = pid
    · simp [getPlayerL, hq]
    · rcases List.mem_cons.mp h with h' | h'
      · subst h'; exact absurd hid hq
      · simpa [getPlayerL, hq] using ih h'

theorem getPlayerL_updateFirst {ps : List Player} {pid : String} {p : Player}
    (f : Player → Player) (hf : ∀ q, (f q).id = q.id)
    (h : getPlayerL ps pid = some p) :
    getPlayerL (updateFirst ps pid f) pid = some (f p) := by
  induction ps with
  | nil => simp [getPlayerL] at h
  | cons q rest ih =>
    by_cases hq : q.id = pid
    · simp only [getPlayerL, if_pos hq] at h
      injection h with h
      subst h
      simp [updateFirst, getPlayerL, hq, hf]
    · simp only [getPlayerL, if_neg hq] at h
      simp [updateFirst, getPlayerL, hq, ih h]

theorem updateFirst_map_id {ps : List Player} {pid : String}
    {f : Player → Player} (hf : ∀ q, (f q).id = q.id) :
    (updateFirst ps pid f).map Player.id = ps.map Player.id := by
  induction ps with
  | nil => simp [updateFirst]
  | cons q rest ih =>
    by_cases hq : q.id = pid <;> simp [updateFirst, hq, hf, ih]

theorem updateFirst_length (ps : List Player) (pid : String) (f : Player → Player) :
    (updateFirst ps pid f).length = ps.length := by
  induction ps with
  | nil => simp [updateFirst]
  | cons q rest ih =>
    by_cases hq : q.id = pid <;> simp [updateFirst, hq, ih]

theorem mem_updateFirst_of_ne {ps : List Player} {pid : String} {q : Player}
    {f : Player → Player} (h : q ∈ ps) (hne : q.id ≠ pid) :
    q ∈ updateFirst ps pid f := by
  induction ps with
  | nil => simp at h
  | cons p rest ih =>
    rcases List.mem_cons.mp h with h' | h'
    · subst h'
      simp [updateFirst, hne]
    · by_cases hp : p.id = pid
      · simp [updateFirst, hp, List.mem_cons_of_mem _ h']
      · simp only [updateFirst, if_neg hp, List.mem_cons]
        exact Or.inr (ih h')

theorem mem_updateFirst_elim {ps : List Player} {pid : String} {q' : Player}
    {f : Player → Player} (h : q' ∈ updateFirst ps pid f) :
    q' ∈ ps ∨ ∃ q, q ∈ ps ∧ q.id = pid ∧ q' = f q := by
  induction ps with
  | nil => simp [updateFirst] at h
  | cons p rest ih =>
    by_cases hp : p.id = pid
    · rcases List.mem_cons.mp (by simpa [updateFirst, hp] using h) with h' | h'
      · exact Or.inr ⟨p, List.mem_cons_self _ _, hp, h'⟩
      · exact Or.inl (List.mem_cons_of_mem _ h')
    · rcases List.mem_cons.mp (by simpa [updateFirst, hp] using h) with h' | h'
      · exact Or.inl (by simp [h'])
      · rcases ih h' with h'' | ⟨q, hq1, hq2, hq3⟩
        · exact Or.inl (List.mem_cons_of_mem _ h'')
        · exact Or.inr ⟨q, List.mem_cons_of_mem _ hq1, hq2, hq3⟩

theorem mem_updateFirst_target {ps : List Player} {pid : String} {p : Player}
    {f : Player → Player} (h : getPlayerL ps pid = some p) :
    f p ∈ updateFirst ps pid f := by
  induction ps with
  | nil => simp [getPlayerL] at h
  | cons q rest ih =>
    by_cases hq : q.id = pid
    · simp only [getPlayerL, if_pos hq] at h
      injection h with h
      subst h
      simp [updateFirst, hq]
    · simp only [getPlayerL, if_neg hq] at h
      simp only [updateFirst, if_neg hq, List.mem_cons]
      exact Or.inr (ih h)

theorem player_id_inj {ps : List Player} (h : (ps.map Player.id).Nodup) :
    ∀ p ∈ ps, ∀ q ∈ ps, p.id = q.id → p = q := by
  induction ps with
  | nil => simp
  | cons a rest ih =>
    simp only [List.map_cons, List.nodup_cons] at h
    intro p hp q hq hpq
    rcases List.mem_cons.mp hp with hp' | hp' <;>
      rcases List.mem_cons.mp hq with hq' | hq'
    · rw [hp', hq']
    · subst hp'
      exact absurd (hpq ▸ List.mem_map_of_mem Player.id hq') h.1
    · subst hq'
      exact absurd (hpq ▸ List.mem_map_of_mem Player.id hp') h.1
    · exact ih h.2 p hp' q hq' hpq

theorem filter_ne_of_head {ps : List Player} {pid : String} {ids : List String}
    (hmap : ps.map Player.id = pid :: ids) (hn : (ps.map Player.id).Nodup) :
    (ps.filter (fun p => p.id != pid)).map Player.id = ids := by
  cases ps with
  | nil => simp at hmap
  | cons p rest =>
    simp only [List.map_cons, List.cons.injEq] at hmap
    obtain ⟨hp, hrest⟩ := hmap
    rw [List.map_cons, hp, hrest] at hn
    simp only [List.nodup_cons] at hn
    have hfr : rest.filter (fun q => q.id != pid) = rest := by
      rw [List.filter_eq_self]
      intro q hq
      simp only [bne_iff_ne, ne_eq]
      intro hqe
      have hmem : q.id ∈ rest.map Player.id := List.mem_map_of_mem _ hq
      rw [hrest, hqe] at hmem
      exact hn.1 hmem
    simp [List.filter_cons, hp, hfr, hrest]

theorem mem_upsert_iff_nodup {α : Type} {m : List (String × α)} {k : String}
    {v : α} {e : String × α} (hn : (m.map Prod.fst).Nodup) :
    e ∈ upsert m k v ↔ e = (k, v) ∨ (e ∈ m ∧ e.1 ≠ k) := by
  constructor
  · intro h
    by_cases hek : e.1 = k
    · left
      have h1 := alookup_of_mem_nodup (nodup_keys_upsert hn) (hek ▸ h)
      rw [alookup_upsert, if_pos rfl] at h1
      have : e.2 = v := by injection h1.symm
      calc e = (e.1, e.2) := rfl
        _ = (k, v) := by rw [hek, this]
    · rcases mem_upsert_elim h with h' | h'
      · exact Or.inl h'
      · exact Or.inr ⟨h', hek⟩
  · rintro (h | ⟨h1, h2⟩)
    · subst h
      exact mem_upsert_self m k v
    · exact mem_upsert_of_ne h1 h2

theorem remove_player_fields (r : Room) (pid : String) (now : Int) :
    ((r.remove_player pid now).1).id = r.id ∧
    ((r.remove_player pid now).1).max_players = r.max_players ∧
    ((r.remove_player pid now).1).is_active = r.is_active ∧
    (r.remove_player pid now).2 = (r.players.filter (fun p => p.id != pid)).isEmpty := by
  unfold Room.remove_player
  cases hps : r.players.filter (fun p => p.id != pid) with
  | nil => simp
  | cons q qs => by_cases hh : r.host_id = pid <;> simp [hh]

theorem remove_player_players_map (r : Room) (pid : String) (now : Int) :
    ((r.remove_player pid now).1).players.map Player.id
      = (r.players.filter (fun p => p.id != pid)).map Player.id := by
  unfold Room.remove_player
  cases hps : r.players.filter (fun p => p.id != pid) with
  | nil => simp
  | cons q qs => by_cases hh : r.host_id = pid <;> simp [hh]

theorem remove_player_mem_transfer (r : Room) (pid : String) (now : Int) :
    ∀ pl ∈ r.players.filter (fun p => p.id != pid),
      ∃ pl' ∈ ((r.remove_player pid now).1).players,
        pl'.id = pl.id ∧ pl'.socket_id = pl.socket_id := by
  unfold Room.remove_player
  cases hps : r.players.filter (fun p => p.id != pid) with
  | nil => simp
  | cons q qs =>
    intro pl hpl
    by_cases hh : r.host_id = pid
    · simp only [hh, if_pos rfl]
      rcases List.mem_cons.mp hpl with h' | h'
      · subst h'
        exact ⟨{ pl with is_host := true }, List.mem_cons_self _ _, rfl, rfl⟩
      · exact ⟨pl, List.mem_cons_of_mem _ h', rfl, rfl⟩
    · simp only [hh, if_neg hh]
      exact ⟨pl, hpl, rfl, rfl⟩

theorem leave_room_member_spec {st : MState} {rid : String} {r : Room}
    {pid : String} {ids : List String} (hInv : RegistryInv st)
    (hmem : (rid, r) ∈ st.rooms)
    (hmap : r.players.map Player.id = pid :: ids) (now : Int) :
    RegistryInv (leave_room st pid now).1 ∧
    (∀ k, k ≠ rid → alookup (leave_room st pid now).1.rooms k = alookup st.rooms k) ∧
    (if ids = [] then alookup (leave_room st pid now).1.rooms rid = none
     else ∃ r', alookup (leave_room st pid now).1.rooms rid = some r' ∧
       r'.players.map Player.id = ids) ∧
    (∀ q, alookup (leave_room st pid now).1.player_to_room q
       = if q = pid then none else alookup st.player_to_room q) ∧
    (∀ e ∈ (leave_room st pid now).1.socket_to_player,
       e ∈ st.socket_to_player ∧ e.2 ≠ pid) := by
  obtain ⟨ndR, ndP, ndS, hkey, hnodupMem, hptr, hmemS, hstp⟩ := hInv
  have hkeyr := hkey (rid, r) hmem
  have hrid_ne : rid ≠ "" := hkeyr.2
  have hpid_mem_map : pid ∈ r.players.map Player.id := by
    rw [hmap]; exact List.mem_cons_self _ _
  obtain ⟨p0, hp0_mem, hp0_id⟩ := List.mem_map.mp hpid_mem_map
  have hptr_pid : (pid, rid) ∈ st.player_to_room := by
    have := hmemS (rid, r) hmem p0 hp0_mem
    rwa [hp0_id] at this
  have hlk_ptr : alookup st.player_to_room pid = some rid :=
    alookup_of_mem_nodup ndP hptr_pid
  have hlk_rooms : alookup st.rooms rid = some r := alookup_of_mem_nodup ndR hmem
  have hnodup_r : (r.players.map Player.id).Nodup := hnodupMem (rid, r) hmem
  have hpid_not_ids : pid ∉ ids := by
    rw [hmap] at hnodup_r
    exact (List.nodup_cons.mp hnodup_r).1
  have hnodup_ids : ids.Nodup := by
    have := hnodupMem (rid, r) hmem
    rw [hmap] at this
    exact (List.nodup_cons.mp this).2
  have hfilter_map : (r.players.filter (fun p => p.id != pid)).map Player.id = ids :=
    filter_ne_of_head hmap hnodup_r
  have hone : ∀ e ∈ st.socket_to_player, ∀ e' ∈ st.socket_to_player,
      e.2 = pid → e'.2 = pid → e = e' := by
    rintro ⟨s1, v1⟩ he ⟨s2, v2⟩ he' hev hev'
    simp only at hev hev'
    obtain ⟨er1, her1, pl1, hpl1, hpl1id, hpl1s⟩ := hstp _ he
    obtain ⟨er2, her2, pl2, hpl2, hpl2id, hpl2s⟩ := hstp _ he'
    simp only at hpl1id hpl1s hpl2id hpl2s
    have h1 : (pid, er1.1) ∈ st.player_to_room := by
      have := hmemS er1 her1 pl1 hpl1
      rwa [hpl1id, hev] at this
    have h2 : (pid, er2.1) ∈ st.player_to_room := by
      have := hmemS er2 her2 pl2 hpl2
      rwa [hpl2id, hev'] at this
    have hk12 : er1.1 = er2.1 := mem_val_unique ndP h1 h2
    have hv12 : er1.2 = er2.2 := by
      have m1 : (er1.1, er1.2) ∈ st.rooms := her1
      have m2 : (er1.1, er2.2) ∈ st.rooms := by
        rw [hk12]
        exact her2
      exact mem_val_unique ndR m1 m2
    have hpl2' : pl2 ∈ er1.2.players := by rw [hv12]; exact hpl2
    have hpl12 : pl1 = pl2 :=
      player_id_inj (hnodupMem er1 her1) pl1 hpl1 pl2 hpl2'
        (by rw [hpl1id, hpl2id, hev, hev'])
    have hs12 : some s1 = some s2 := by rw [← hpl1s, ← hpl2s, hpl12]
    injection hs12 with hs
    rw [hs, hev, hev']
  have hstp' : ∀ e ∈ eraseFirstVal st.socket_to_player pid,
      e ∈ st.socket_to_player ∧ e.2 ≠ pid := fun e he =>
    ⟨(eraseFirstVal_sublist _ _).subset he, eraseFirstVal_ne_val ndS hone e he⟩
  have hptr' : ∀ q, alookup (eraseKey st.player_to_room pid) q
      = if q = pid then none else alookup st.player_to_room q := by
    intro q
    rw [alookup_eraseKey]
    by_cases h : q = pid
    · simp [h]
    · rw [if_neg (fun hh => h hh.symm), if_neg h]
  have hrp := remove_player_fields r pid now
  have hrp_map : ((r.remove_player pid now).1).players.map Player.id = ids := by
    rw [remove_player_players_map, hfilter_map]
  have hstep : leave_room st pid now =
      (if (r.remove_player pid now).2 then
        ({ st with
            rooms := eraseKey (upsert st.rooms rid (r.remove_player pid now).1) rid,
            player_to_room := eraseKey st.player_to_room pid,
            socket_to_player := eraseFirstVal st.socket_to_player pid }, none)
      else
        ({ st with
            rooms := upsert st.rooms rid (r.remove_player pid now).1,
            player_to_room := eraseKey st.player_to_room pid,
            socket_to_player := eraseFirstVal st.socket_to_player pid },
         some (r.remove_player pid now).1)) := by
    simp only [leave_room, hlk_ptr, hlk_rooms, if_neg hrid_ne]
  cases hids : ids with
  | nil =>
    have hempty : (r.players.filter (fun p => p.id != pid)) = [] := by
      have : (r.players.filter (fun p => p.id != pid)).map Player.id = [] := by
        rw [hfilter_map, hids]
      exact List.map_eq_nil_iff.mp this
    have hisE : (r.remove_player pid now).2 = true := by
      rw [hrp.2.2.2, hempty]
      rfl
    rw [hstep, if_pos hisE]
    have hmemrooms : ∀ e, e ∈ eraseKey (upsert st.rooms rid (r.remove_player pid now).1) rid →
        e ∈ st.rooms ∧ e.1 ≠ rid := by
      intro e he
      obtain ⟨h1, h2⟩ := mem_eraseKey.mp he
      rcases mem_upsert_elim h1 with h' | h'
      · exact absurd (by rw [h']) h2
      · exact ⟨h', h2⟩
    have honly : ∀ pl ∈ r.players, pl.id = pid := by
      intro pl hpl
      have : pl.id ∈ r.players.map Player.id := List.mem_map_of_mem _ hpl
      rw [hmap, hids] at this
      simpa using this
    refine ⟨⟨?_, ?_, ?_, ?_, ?_, ?_, ?_, ?_⟩, ?_, ?_, ?_, ?_⟩
    · exact ((eraseKey_sublist _ _).map Prod.fst).nodup (nodup_keys_upsert ndR)
    · exact ((eraseKey_sublist _ _).map Prod.fst).nodup ndP
    · exact ((eraseFirstVal_sublist _ _).map Prod.fst).nodup ndS
    · intro e he
      exact hkey e (hmemrooms e he).1
    · intro e he
      exact hnodupMem e (hmemrooms e he).1
    · intro e he
      obtain ⟨he1, he2⟩ := mem_eraseKey.mp he
      obtain ⟨er, her, herk, pl, hpl, hplid⟩ := hptr e he1
      have hner : er.1 ≠ rid := by
        intro hh
        have hvr : er.2 = r := mem_val_unique ndR (hh ▸ her) hmem
        have := honly pl (hvr ▸ hpl)
        rw [hplid] at this
        exact he2 this
      refine ⟨er, mem_eraseKey.mpr ⟨mem_upsert_of_ne her hner, hner⟩, herk, pl, hpl, hplid⟩
    · intro er her pl hpl
      have her' := (hmemrooms er her).1
      have hner := (hmemrooms er her).2
      have hold := hmemS er her' pl hpl
      have hplne : pl.id ≠ pid := by
        intro hh
        have : er.1 = rid := mem_val_unique ndP (hh ▸ hold) hptr_pid
        exact hner this
      exact mem_eraseKey.mpr ⟨hold, hplne⟩
    · intro e he
      obtain ⟨he1, he2⟩ := hstp' e he
      obtain ⟨er, her, pl, hpl, hplid, hpls⟩ := hstp e he1
      have hner : er.1 ≠ rid := by
        intro hh
        have hvr : er.2 = r := mem_val_unique ndR (hh ▸ her) hmem
        have := honly pl (hvr ▸ hpl)
        rw [hplid] at this
        exact he2 this
      refine ⟨er, mem_eraseKey.mpr ⟨mem_upsert_of_ne her hner, hner⟩, pl, hpl, hplid, hpls⟩
    · intro k hk
      rw [alookup_eraseKey, if_neg (fun hh => hk hh.symm), alookup_upsert,
        if_neg (fun hh => hk hh.symm)]
    · simp [hids, alookup_eraseKey]
    · exact hptr'
    · exact hstp'
  | cons t ts =>
    have hnonempty : (r.players.filter (fun p => p.id != pid)) ≠ [] := by
      intro hh
      have : (r.players.filter (fun p => p.id != pid)).map Player.id = [] := by
        rw [hh]; rfl
      rw [hfilter_map, hids] at this
      exact List.cons_ne_nil _ _ this
    have hisE : (r.remove_player pid now).2 = false := by
      rw [hrp.2.2.2]
      cases hc : r.players.filter (fun p => p.id != pid) with
      | nil => exact absurd hc hnonempty
      | cons a as => rfl
    rw [hstep, if_neg (by rw [hisE]; exact Bool.false_ne_true)]
    refine ⟨⟨?_, ?_, ?_, ?_, ?_, ?_, ?_, ?_⟩, ?_, ?_, ?_, ?_⟩
    · exact nodup_keys_upsert ndR
    · exact ((eraseKey_sublist _ _).map Prod.fst).nodup ndP
    · exact ((eraseFirstVal_sublist _ _).map Prod.fst).nodup ndS
    · intro e he
      rcases (mem_upsert_iff_nodup ndR).mp he with h' | ⟨h1, _⟩
      · rw [h']
        exact ⟨by rw [hrp.1, hkeyr.1], hrid_ne⟩
      · exact hkey e h1
    · intro e he
      rcases (mem_upsert_iff_nodup ndR).mp he with h' | ⟨h1, _⟩
      · rw [h']
        simp only
        rw [hrp_map]
        exact hids ▸ hnodup_ids
      · exact hnodupMem e h1
    · intro e he
      obtain ⟨he1, he2⟩ := mem_eraseKey.mp he
      obtain ⟨er, her, herk, pl, hpl, hplid⟩ := hptr e he1
      by_cases hner : er.1 = rid
      · have hvr : er.2 = r := mem_val_unique ndR (hner ▸ her) hmem
        have hplr : pl ∈ r.players := hvr ▸ hpl
        have hplne : pl.id ≠ pid := by
          rw [hplid]
          exact he2
        have hidin : pl.id ∈ ids := by
          have : pl.id ∈ r.players.map Player.id := List.mem_map_of_mem _ hplr
          rw [hmap] at this
          rcases List.mem_cons.mp this with h' | h'
          · exact absurd h' hplne
          · exact h'
        have : pl.id ∈ ((r.remove_player pid now).1).players.map Player.id := by
          rw [hrp_map]
          exact hidin
        obtain ⟨pl', hpl', hpl'id⟩ := List.mem_map.mp this
        refine ⟨(rid, (r.remove_player pid now).1), mem_upsert_self _ _ _,
          by rw [← herk, hner], pl', hpl', by rw [hpl'id, hplid]⟩
      · refine ⟨er, mem_upsert_of_ne her hner, herk, pl, hpl, hplid⟩
    · intro er her pl hpl
      rcases (mem_upsert_iff_nodup ndR).mp her with h' | ⟨h1, h2⟩
      · have hplmem : pl.id ∈ ids := by
          have : pl ∈ ((r.remove_player pid now).1).players := by
            rw [h'] at hpl
            exact hpl
          have := List.mem_map_of_mem Player.id this
          rwa [hrp_map] at this
        have hplne : pl.id ≠ pid := fun hh => hpid_not_ids (hh ▸ hplmem)
        have : pl.id ∈ r.players.map Player.id := by
          rw [hmap]
          exact List.mem_cons_of_mem _ hplmem
        obtain ⟨pl0, hpl0, hpl0id⟩ := List.mem_map.mp this
        have hold : (pl.id, rid) ∈ st.player_to_room := by
          have := hmemS (rid, r) hmem pl0 hpl0
          rwa [hpl0id] at this
        have herk : er.1 = rid := by rw [h']
        rw [herk]
        exact mem_eraseKey.mpr ⟨hold, hplne⟩
      · have hold := hmemS er h1 pl hpl
        have hplne : pl.id ≠ pid := by
          intro hh
          exact h2 (mem_val_unique ndP (hh ▸ hold) hptr_pid)
        exact mem_eraseKey.mpr ⟨hold, hplne⟩
    · intro e he
      obtain ⟨he1, he2⟩ := hstp' e he
      obtain ⟨er, her, pl, hpl, hplid, hpls⟩ := hstp e he1
      by_cases hner : er.1 = rid
      · have hvr : er.2 = r := mem_val_unique ndR (hner ▸ her) hmem
        have hplr : pl ∈ r.players := hvr ▸ hpl
        have hplfil : pl ∈ r.players.filter (fun p => p.id != pid) := by
          rw [List.mem_filter]
          refine ⟨hplr, ?_⟩
          simp only [bne_iff_ne, ne_eq]
          rw [hplid]
          exact he2
        obtain ⟨pl', hpl', hpl'id, hpl's⟩ := remove_player_mem_transfer r pid now pl hplfil
        refine ⟨(rid, (r.remove_player pid now).1), mem_upsert_self _ _ _,
          pl', hpl', by rw [hpl'id, hplid], by rw [hpl's, hpls]⟩
      · exact ⟨er, mem_upsert_of_ne her hner, pl, hpl, hplid, hpls⟩
    · intro k hk
      rw [alookup_upsert, if_neg (fun hh => hk hh.symm)]
    · simp only [hids]
      rw [if_neg (List.cons_ne_nil t ts)]
      refine ⟨(r.remove_player pid now).1, ?_, by rw [hrp_map, hids]⟩
      rw [alookup_upsert, if_pos rfl]
    · exact hptr'
    · exact hstp'

theorem foldl_leave_spec (now : Int) :
    ∀ (ps : List Player) (st : MState) (rid : String) (r : Room),
      RegistryInv st → alookup st.rooms rid = some r →
      r.players.map Player.id = ps.map Player.id →
      RegistryInv (ps.foldl (fun s p => (leave_room s p.id now).1) st) ∧
      (∀ k, k ≠ rid →
        alookup (ps.foldl (fun s p => (leave_room s p.id now).1) st).rooms k
          = alookup st.rooms k) ∧
      (if ps = [] then
        alookup (ps.foldl (fun s p => (leave_room s p.id now).1) st).rooms rid = some r
       else
        alookup (ps.foldl (fun s p => (leave_room s p.id now).1) st).rooms rid = none) ∧
      (∀ q, alookup (ps.foldl (fun s p => (leave_room s p.id now).1) st).player_to_room q
         = if q ∈ ps.map Player.id then none else alookup st.player_to_room q) ∧
      (∀ e ∈ (ps.foldl (fun s p => (leave_room s p.id now).1) st).socket_to_player,
         e ∈ st.socket_to_player ∧ e.2 ∉ ps.map Player.id) := by
  intro ps
  induction ps with
  | nil =>
    intro st rid r hInv hlk _
    refine ⟨hInv, fun k _ => rfl, by simpa using hlk, fun q => by simp, fun e he => ⟨he, by simp⟩⟩
  | cons p rest ih =>
    intro st rid r hInv hlk hmap
    have hmem : (rid, r) ∈ st.rooms := alookup_mem hlk
    have hmap' : r.players.map Player.id = p.id :: rest.map Player.id := by
      simpa using hmap
    obtain ⟨hInv1, hrooms1, hrid1, hptr1, hstp1⟩ :=
      leave_room_member_spec hInv hmem hmap' now
    simp only [List.foldl_cons]
    by_cases hrestnil : rest = []
    · subst hrestnil
      simp only [List.foldl_nil]
      have hnone : alookup (leave_room st p.id now).1.rooms rid = none := by
        simpa using hrid1
      refine ⟨hInv1, hrooms1, by simpa using hnone, ?_, ?_⟩
      · intro q
        have := hptr1 q
        by_cases hq : q = p.id
        · simpa [hq] using this
        · simpa [hq] using this
      · intro e he
        obtain ⟨he1, he2⟩ := hstp1 e he
        exact ⟨he1, by simpa using he2⟩
    · have hmapsne : ¬ rest.map Player.id = [] := by
        simpa using hrestnil
      rw [if_neg hmapsne] at hrid1
      obtain ⟨r', hlk', hmap''⟩ := hrid1
      obtain ⟨hInv2, hrooms2, hrid2, hptr2, hstp2⟩ :=
        ih (leave_room st p.id now).1 rid r' hInv1 hlk' hmap''
      rw [if_neg hrestnil] at hrid2
      refine ⟨hInv2, ?_, ?_, ?_, ?_⟩
      · intro k hk
        rw [hrooms2 k hk, hrooms1 k hk]
      · rw [if_neg (List.cons_ne_nil p rest)]
        exact hrid2
      · intro q
        rw [hptr2 q]
        by_cases hq1 : q ∈ rest.map Player.id
        · simp [hq1]
        · rw [if_neg hq1, hptr1 q]
          by_cases hq2 : q = p.id
          · simp [hq1, hq2]
          · simp [hq1, hq2]
      · intro e he
        obtain ⟨he1, he2⟩ := hstp2 e he
        obtain ⟨he3, he4⟩ := hstp1 e he1
        refine ⟨he3, ?_⟩
        simp only [List.map_cons, List.mem_cons]
        rintro (h | h)
        · exact he4 h
        · exact he2 h

theorem remove_room_spec {st : MState} (hInv : RegistryInv st) (rid : String)
    (now : Int) :
    RegistryInv (remove_room st rid now) ∧
    (∀ k, k ≠ rid → alookup (remove_room st rid now).rooms k = alookup st.rooms k) ∧
    alookup (remove_room st rid now).rooms rid = none ∧
    (∀ r q, alookup st.rooms rid = some r → q ∈ r.players.map Player.id →
       alookup (remove_room st rid now).player_to_room q = none) ∧
    (∀ q, alookup st.player_to_room q = none →
       alookup (remove_room st rid now).player_to_room q = none) ∧
    (∀ e ∈ (remove_room st rid now).socket_to_player, e ∈ st.socket_to_player) ∧
    (∀ r e, alookup st.rooms rid = some r →
       e ∈ (remove_room st rid now).socket_to_player →
       e.2 ∉ r.players.map Player.id) := by
  cases hlk : alookup st.rooms rid with
  | none =>
    have hrr : remove_room st rid now = st := by
      simp [remove_room, hlk]
    rw [hrr]
    refine ⟨hInv, fun k _ => rfl, hlk, ?_, fun q h => h, fun e he => he, ?_⟩
    · intro r q h
      cases h
    · intro r e h
      cases h
  | some r =>
    obtain ⟨ndR, ndP, ndS, hkey, hnodupMem, hptr, hmemS, hstp⟩ := hInv
    have hInv' : RegistryInv st := ⟨ndR, ndP, ndS, hkey, hnodupMem, hptr, hmemS, hstp⟩
    have hmem : (rid, r) ∈ st.rooms := alookup_mem hlk
    obtain ⟨hI, hk, hridc, hptrF, hstpF⟩ :=
      foldl_leave_spec now r.players st rid r hInv' hlk rfl
    by_cases hpl : r.players = []
    · have hfold : r.players.foldl (fun s p => (leave_room s p.id now).1) st = st := by
        rw [hpl]
        rfl
      have hsome : (alookup (r.players.foldl
          (fun s p => (leave_room s p.id now).1) st).rooms rid).isSome := by
        rw [hfold, hlk]
        rfl
      have hrr : remove_room st rid now
          = { st with rooms := eraseKey st.rooms rid } := by
        simp only [remove_room, hlk]
        rw [hfold] at hsome ⊢
        rw [if_pos hsome]
      rw [hrr]
      have hmemrooms : ∀ e, e ∈ eraseKey st.rooms rid → e ∈ st.rooms ∧ e.1 ≠ rid :=
        fun e he => mem_eraseKey.mp he
      refine ⟨⟨?_, ndP, ndS, ?_, ?_, ?_, ?_, ?_⟩, ?_, ?_, ?_, fun q h => h,
        fun e he => he, ?_⟩
      · exact ((eraseKey_sublist _ _).map Prod.fst).nodup ndR
      · exact fun e he => hkey e (hmemrooms e he).1
      · exact fun e he => hnodupMem e (hmemrooms e he).1
      · intro e he
        obtain ⟨er, her, herk, pl, hplm, hplid⟩ := hptr e he
        have hner : er.1 ≠ rid := by
          intro hh
          have hvr : er.2 = r := mem_val_unique ndR (hh ▸ her) hmem
          rw [hvr, hpl] at hplm
          cases hplm
        exact ⟨er, mem_eraseKey.mpr ⟨her, hner⟩, herk, pl, hplm, hplid⟩
      · intro er her pl hplm
        exact hmemS er (hmemrooms er her).1 pl hplm
      · intro e he
        obtain ⟨er, her, pl, hplm, hplid, hpls⟩ := hstp e he
        have hner : er.1 ≠ rid := by
          intro hh
          have hvr : er.2 = r := mem_val_unique ndR (hh ▸ her) hmem
          rw [hvr, hpl] at hplm
          cases hplm
        exact ⟨er, mem_eraseKey.mpr ⟨her, hner⟩, pl, hplm, hplid, hpls⟩
      · intro k hk2
        rw [alookup_eraseKey, if_neg (fun hh => hk2 hh.symm)]
      · rw [alookup_eraseKey, if_pos rfl]
      · intro r0 q h hq
        injection h with h
        subst h
        rw [hpl] at hq
        cases hq
      · intro r0 e h he
        injection h with h
        subst h
        rw [hpl]
        simp
    · have hnone : alookup (r.players.foldl
          (fun s p => (leave_room s p.id now).1) st).rooms rid = none := by
        rw [if_neg hpl] at hridc
        exact hridc
      have hrr : remove_room st rid now
          = r.players.foldl (fun s p => (leave_room s p.id now).1) st := by
        simp only [remove_room, hlk]
        rw [if_neg (by rw [hnone]; simp)]
      rw [hrr]
      refine ⟨hI, hk, hnone, ?_, ?_, fun e he => (hstpF e he).1, ?_⟩
      · intro r0 q h hq
        injection h with h
        subst h
        rw [hptrF q, if_pos hq]
      · intro q h
        rw [hptrF q]
        by_cases hq : q ∈ r.players.map Player.id
        · rw [if_pos hq]
        · rw [if_neg hq]
          exact h
      · intro r0 e h he
        injection h with h
        subst h
        exact (hstpF e he).2

theorem foldl_remove_spec (now : Int) :
    ∀ (rids : List String) (st : MState), RegistryInv st →
      RegistryInv (rids.foldl (fun s k => remove_room s k now) st) ∧
      (∀ k, k ∉ rids →
        alookup (rids.foldl (fun s k => remove_room s k now) st).rooms k
          = alookup st.rooms k) ∧
      (∀ k, alookup st.rooms k = none →
        alookup (rids.foldl (fun s k => remove_room s k now) st).rooms k = none) ∧
      (∀ k, k ∈ rids →
        alookup (rids.foldl (fun s k => remove_room s k now) st).rooms k = none) ∧
      (∀ rid ∈ rids, ∀ r q, alookup st.rooms rid = some r →
        q ∈ r.players.map Player.id →
        alookup (rids.foldl (fun s k => remove_room s k now) st).player_to_room q
          = none) ∧
      (∀ q, alookup st.player_to_room q = none →
        alookup (rids.foldl (fun s k => remove_room s k now) st).player_to_room q
          = none) ∧
      (∀ e ∈ (rids.foldl (fun s k => remove_room s k now) st).socket_to_player,
        e ∈ st.socket_to_player) ∧
      (∀ rid ∈ rids, ∀ r e, alookup st.rooms rid = some r →
        e ∈ (rids.foldl (fun s k => remove_room s k now) st).socket_to_player →
        e.2 ∉ r.players.map Player.id) := by
  intro rids
  induction rids with
  | nil =>
    intro st hInv
    exact ⟨hInv, fun k _ => rfl, fun k h => h, fun k h => absurd h (by simp),
      fun rid h => absurd h (by simp), fun q h => h, fun e he => he,
      fun rid h => absurd h (by simp)⟩
  | cons rid0 rest ih =>
    intro st hInv
    obtain ⟨hI1, hB1, hC1, hD1, hDn1, hF1, hG1⟩ := remove_room_spec hInv rid0 now
    obtain ⟨hI2, hB2, hBn2, hC2, hD2, hDn2, hF2, hG2⟩ := ih (remove_room st rid0 now) hI1
    simp only [List.foldl_cons]
    refine ⟨hI2, ?_, ?_, ?_, ?_, ?_, ?_, ?_⟩
    · intro k hk
      have hk0 : k ≠ rid0 := fun hh => hk (hh ▸ List.mem_cons_self _ _)
      have hkr : k ∉ rest := fun hh => hk (List.mem_cons_of_mem _ hh)
      rw [hB2 k hkr, hB1 k hk0]
    · intro k hk
      by_cases hk0 : k = rid0
      · subst hk0
        exact hBn2 k hC1
      · exact hBn2 k (by rw [hB1 k hk0]; exact hk)
    · intro k hk
      rcases List.mem_cons.mp hk with h | h
      · subst h
        exact hBn2 k hC1
      · exact hC2 k h
    · intro rid hrid r q hr hq
      by_cases h0 : rid = rid0
      · subst h0
        exact hDn2 q (hD1 r q hr hq)
      · rcases List.mem_cons.mp hrid with h | h
        · exact absurd h h0
        · exact hD2 rid h r q (by rw [hB1 rid h0]; exact hr) hq
    · intro q hq
      exact hDn2 q (hDn1 q hq)
    · intro e he
      exact hF1 e (hF2 e he)
    · intro rid hrid r e hr he
      by_cases h0 : rid = rid0
      · subst h0
        exact hG1 r e hr (hF2 e he)
      · rcases List.mem_cons.mp hrid with h | h
        · exact absurd h h0
        · exact hG2 rid h r e (by rw [hB1 rid h0]; exact hr) he

/-- C9: one sweep cycle removes, via `remove_room`, exactly the rooms whose
`last_activity` is older than the one-hour TTL at the start of the cycle or
whose active flag is false. Evicted rooms disappear together with their
members' entries in both indexes, and `get_room` on the room's code (which
is uppercase for generated codes) then reports not-found; rooms matching
neither condition survive unchanged. A room whose `last_activity` lies two
hours in the past satisfies the TTL condition, as realized in the witness. -/
theorem sweep_cycle_eviction (st : MState) (now : Int) (rid : String) (r : Room)
    (pl : Player) (e : String × String) (hInv : RegistryInv st)
    (hmem : (rid, r) ∈ st.rooms) :
    ((r.last_activity < now - 3600 ∨ r.is_active = false) →
      alookup (sweep_cycle st now).rooms rid = none ∧
      (pyUpper r.id = r.id → get_room (sweep_cycle st now) r.id = none) ∧
      (pl ∈ r.players →
        alookup (sweep_cycle st now).player_to_room pl.id = none ∧
        (e ∈ (sweep_cycle st now).socket_to_player → e.2 ≠ pl.id))) ∧
    (¬(r.last_activity < now - 3600 ∨ r.is_active = false) →
      alookup (sweep_cycle st now).rooms rid = some r) := by
  have ndR : (st.rooms.map Prod.fst).Nodup := hInv.1
  have hkeyr := hInv.2.2.2.1 (rid, r) hmem
  have hlk : alookup st.rooms rid = some r := alookup_of_mem_nodup ndR hmem
  have hsweep : sweep_cycle st now
      = ((st.rooms.filter
          (fun e => decide (e.2.last_activity < now - 3600) || !e.2.is_active)).map
            (·.1)).foldl (fun s k => remove_room s k now) st := rfl
  obtain ⟨_, hB, _, hC, hD, _, _, hG⟩ :=
    foldl_remove_spec now
      ((st.rooms.filter
        (fun e => decide (e.2.last_activity < now - 3600) || !e.2.is_active)).map
          (·.1)) st hInv
  constructor
  · intro hcond
    have hcondB : (decide (r.last_activity < now - 3600) || !r.is_active) = true := by
      rcases hcond with h | h
      · simp [h]
      · simp [h]
    have hin : rid ∈ (st.rooms.filter
        (fun e => decide (e.2.last_activity < now - 3600) || !e.2.is_active)).map
          (·.1) := by
      refine List.mem_map.mpr ⟨(rid, r), List.mem_filter.mpr ⟨hmem, hcondB⟩, rfl⟩
    have hnone : alookup (sweep_cycle st now).rooms rid = none := by
      rw [hsweep]
      exact hC rid hin
    refine ⟨hnone, ?_, ?_⟩
    · intro hupper
      show alookup (sweep_cycle st now).rooms (pyUpper r.id) = none
      rw [hupper, hkeyr.1]
      exact hnone
    · intro hplm
      have hplid : pl.id ∈ r.players.map Player.id := List.mem_map_of_mem _ hplm
      constructor
      · rw [hsweep]
        exact hD rid hin r pl.id hlk hplid
      · intro he
        rw [hsweep] at he
        intro hh
        exact hG rid hin r e hlk he (hh ▸ hplid)
  · intro hcond
    have hnotin : rid ∉ (st.rooms.filter
        (fun e => decide (e.2.last_activity < now - 3600) || !e.2.is_active)).map
          (·.1) := by
      intro hin
      obtain ⟨er, her, herk⟩ := List.mem_map.mp hin
      obtain ⟨hermem, hercond⟩ := List.mem_filter.mp her
      have : er.2 = r := by
        have h1 : (rid, er.2) ∈ st.rooms := by
          rw [← herk]
          exact hermem
        exact mem_val_unique ndR h1 hmem
      rw [this] at hercond
      simp only [Bool.or_eq_true, decide_eq_true_eq, Bool.not_eq_true'] at hercond
      exact hcond hercond
    rw [hsweep, hB rid hnotin]
    exact hlk

theorem add_player_link {r : Room} (p : Player) (now : Int)
    (h1 : r.players.length ≤ 2) (h2 : r.max_players = 2)
    (h3 : r.link_cable_connected = true ↔ r.players.length = 2) :
    ((r.add_player p now).1).players.length ≤ 2 ∧
    ((r.add_player p now).1).max_players = 2 ∧
    (((r.add_player p now).1).link_cable_connected = true ↔
      ((r.add_player p now).1).players.length = 2) := by
  simp only [Room.add_player]
  by_cases hge : r.players.length ≥ r.max_players
  · rw [if_pos hge]
    exact ⟨h1, h2, h3⟩
  · rw [if_neg hge]
    rw [h2] at hge
    simp only [ge_iff_le, not_le] at hge
    by_cases h4 : (r.players ++ [if r.players.isEmpty = true
        then { p with is_host := true } else p]).length = 2
    · rw [if_pos h4]
      simp only [List.length_append, List.length_cons, List.length_nil] at h4 ⊢
      refine ⟨by omega, h2, by simp [h4]⟩
    · rw [if_neg h4]
      simp only [List.length_append, List.length_cons, List.length_nil] at h4 ⊢
      have hl0 : r.players.length = 0 := by omega
      refine ⟨by omega, h2, ?_⟩
      constructor
      · intro hlink
        have := h3.mp hlink
        omega
      · intro hh
        omega

theorem remove_player_link {r : Room} (pid : String) (now : Int)
    (h1 : r.players.length ≤ 2) (h2 : r.max_players = 2)
    (h3 : r.link_cable_connected = true ↔ r.players.length = 2) :
    ((r.remove_player pid now).1).players.length ≤ 2 ∧
    ((r.remove_player pid now).1).max_players = 2 ∧
    (((r.remove_player pid now).1).link_cable_connected = true ↔
      ((r.remove_player pid now).1).players.length = 2) := by
  have hle : (r.players.filter (fun p => p.id != pid)).length ≤ r.players.length :=
    List.length_filter_le _ _
  have hrlink : r.players.length = 2 → r.link_cable_connected = true := h3.mpr
  cases hps : r.players.filter (fun p => p.id != pid) with
  | nil => simp [Room.remove_player, hps, h2]
  | cons q qs =>
    simp only [Room.remove_player, hps]
    rw [hps] at hle
    have hlen : (q :: qs).length ≤ 2 := le_trans hle h1
    by_cases hlt : (q :: qs).length < 2
    · rw [if_pos hlt]
      by_cases hh : r.host_id = pid
      · rw [if_pos hh]
        simp only [List.length_cons] at hlt ⊢
        exact ⟨by omega, h2, by simp; omega⟩
      · rw [if_neg hh]
        simp only [List.length_cons] at hlt ⊢
        exact ⟨by omega, h2, by simp; omega⟩
    · rw [if_neg hlt]
      have hr2 : r.players.length = 2 := by
        simp only [List.length_cons] at hle hlen hlt
        omega
      have hq2 : qs.length + 1 = 2 := by
        simp only [List.length_cons] at hle hlen hlt
        omega
      by_cases hh : r.host_id = pid
      · rw [if_pos hh]
        simp only [List.length_cons]
        refine ⟨by omega, h2, ?_⟩
        rw [hrlink hr2]
        simp [hq2]
      · rw [if_neg hh]
        simp only [List.length_cons]
        refine ⟨by omega, h2, ?_⟩
        rw [hrlink hr2]
        simp [hq2]

theorem leave_room_link {st : MState} (pid : String) (now : Int)
    (hK : ∀ e ∈ st.rooms, e.2.players.length ≤ 2 ∧ e.2.max_players = 2 ∧
      (e.2.link_cable_connected = true ↔ e.2.players.length = 2)) :
    ∀ e ∈ (leave_room st pid now).1.rooms, e.2.players.length ≤ 2 ∧
      e.2.max_players = 2 ∧
      (e.2.link_cable_connected = true ↔ e.2.players.length = 2) := by
  cases hlk1 : alookup st.player_to_room pid with
  | none =>
    have h : (leave_room st pid now).1 = st := by simp [leave_room, hlk1]
    rw [h]
    exact hK
  | some rid =>
    by_cases hrid : rid = ""
    · have h : (leave_room st pid now).1 = st := by simp [leave_room, hlk1, hrid]
      rw [h]
      exact hK
    · cases hlk2 : alookup st.rooms rid with
      | none =>
        have h : (leave_room st pid now).1 = st := by
          simp [leave_room, hlk1, hrid, hlk2]
        rw [h]
        exact hK
      | some room =>
        have hKr := hK (rid, room) (alookup_mem hlk2)
        have hrp := remove_player_link pid now hKr.1 hKr.2.1 hKr.2.2
        by_cases hemp : (room.remove_player pid now).2 = true
        · have h : (leave_room st pid now).1.rooms
              = eraseKey (upsert st.rooms rid (room.remove_player pid now).1) rid := by
            simp [leave_room, hlk1, hrid, hlk2, hemp]
          rw [h]
          intro e he
          rcases mem_upsert_elim (mem_eraseKey.mp he).1 with h' | h'
          · rw [h']
            exact hrp
          · exact hK e h'
        · have h : (leave_room st pid now).1.rooms
              = upsert st.rooms rid (room.remove_player pid now).1 := by
            simp [leave_room, hlk1, hrid, hlk2, hemp]
          rw [h]
          intro e he
          rcases mem_upsert_elim he with h' | h'
          · rw [h']
            exact hrp
          · exact hK e h'

theorem applyOp_link (st : MState) (op : Op)
    (hK : ∀ e ∈ st.rooms, e.2.players.length ≤ 2 ∧ e.2.max_players = 2 ∧
      (e.2.link_cable_connected = true ↔ e.2.players.length = 2)) :
    ∀ e ∈ (applyOp st op).rooms, e.2.players.length ≤ 2 ∧ e.2.max_players = 2 ∧
      (e.2.link_cable_connected = true ↔ e.2.players.length = 2) := by
  cases op with
  | create rid pid hostName rom now =>
    have hP : ((create_room st rid pid hostName rom now).2.1).players.length ≤ 2 ∧
        ((create_room st rid pid hostName rom now).2.1).max_players = 2 ∧
        (((create_room st rid pid hostName rom now).2.1).link_cable_connected = true ↔
          ((create_room st rid pid hostName rom now).2.1).players.length = 2) := by
      simp only [create_room]
      exact add_player_link _ now (by simp) (by simp) (by simp)
    have h : (applyOp st (.create rid pid hostName rom now)).rooms
        = upsert st.rooms ((create_room st rid pid hostName rom now).2.1).id
            ((create_room st rid pid hostName rom now).2.1) := rfl
    rw [h]
    intro e he
    rcases mem_upsert_elim he with h' | h'
    · rw [h']
      exact hP
    · exact hK e h'
  | join code pid playerName rom now =>
    cases hlk : alookup st.rooms (pyUpper code) with
    | none =>
      have h : (applyOp st (.join code pid playerName rom now)).rooms = st.rooms := by
        simp [applyOp, join_room, hlk]
      rw [h]
      exact hK
    | some room =>
      have hKr := hK (pyUpper code, room) (alookup_mem hlk)
      by_cases hact : room.is_active = false
      · have h : (applyOp st (.join code pid playerName rom now)).rooms = st.rooms := by
          simp [applyOp, join_room, hlk, hact]
        rw [h]
        exact hK
      · by_cases hfull : room.players.length ≥ room.max_players
        · have h : (applyOp st (.join code pid playerName rom now)).rooms
              = st.rooms := by
            simp [applyOp, join_room, hlk, hact, hfull]
          rw [h]
          exact hK
        · have hsucc : ∀ q : Player, (room.add_player q now).2.2 = true := by
            intro q
            simp [Room.add_player, hfull]
          have h : (applyOp st (.join code pid playerName rom now)).rooms
              = upsert st.rooms (pyUpper code)
                  ((room.add_player
                    { id := pid, name := playerName, is_host := false,
                      status := if romTruthy rom then .READY else .CONNECTING,
                      socket_id := none, rom_loaded := romTruthy rom, rom_name := rom,
                      save_state := none, joined_at := now } now).1) := by
            simp [applyOp, join_room, hlk, hact, hfull, hsucc]
          rw [h]
          intro e he
          rcases mem_upsert_elim he with h' | h'
          · rw [h']
            exact add_player_link _ now hKr.1 hKr.2.1 hKr.2.2
          · exact hK e h'
  | leave pid now => exact leave_room_link pid now hK
  | bind sid pid now =>
    cases hlk1 : alookup st.player_to_room pid with
    | none =>
      have h : (applyOp st (.bind sid pid now)).rooms = st.rooms := by
        simp [applyOp, connect_socket, hlk1]
      rw [h]
      exact hK
    | some rid =>
      by_cases hrid : rid = ""
      · have h : (applyOp st (.bind sid pid now)).rooms = st.rooms := by
          simp [applyOp, connect_socket, hlk1, hrid]
        rw [h]
        exact hK
      · cases hlk2 : alookup st.rooms rid with
        | none =>
          have h : (applyOp st (.bind sid pid now)).rooms = st.rooms := by
            simp [applyOp, connect_socket, hlk1, hrid, hlk2]
          rw [h]
          exact hK
        | some room =>
          cases hgp : room.get_player pid with
          | none =>
            have h : (applyOp st (.bind sid pid now)).rooms = st.rooms := by
              simp [applyOp, connect_socket, hlk1, hrid, hlk2, hgp]
            rw [h]
            exact hK
          | some p0 =>
            have hKr := hK (rid, room) (alookup_mem hlk2)
            have h : (applyOp st (.bind sid pid now)).rooms
                = upsert st.rooms rid { room with
                    players := updateFirst room.players pid
                      (fun q => { q with socket_id := some sid, status := .CONNECTED }),
                    last_activity := now } := by
              simp [applyOp, connect_socket, hlk1, hrid, hlk2, hgp]
            rw [h]
            intro e he
            rcases mem_upsert_elim he with h' | h'
            · rw [h']
              refine ⟨?_, hKr.2.1, ?_⟩
              · simp only [updateFirst_length]
                exact hKr.1
              · simp only [updateFirst_length]
                exact hKr.2.2
            · exact hK e h'
  | unbind sid =>
    cases hlk0 : alookup st.socket_to_player sid with
    | none =>
      have h : (applyOp st (.unbind sid)).rooms = st.rooms := by
        simp [applyOp, disconnect_socket, hlk0]
      rw [h]
      exact hK
    | some pid =>
      by_cases hpid : pid = ""
      · have h : (applyOp st (.unbind sid)).rooms = st.rooms := by
          simp [applyOp, disconnect_socket, hlk0, hpid]
        rw [h]
        exact hK
      · cases hlk1 : alookup st.player_to_room pid with
        | none =>
          have h : (applyOp st (.unbind sid)).rooms = st.rooms := by
            simp [applyOp, disconnect_socket, hlk0, hpid, hlk1]
          rw [h]
          exact hK
        | some rid =>
          by_cases hrid : rid = ""
          · have h : (applyOp st (.unbind sid)).rooms = st.rooms := by
              simp [applyOp, disconnect_socket, hlk0, hpid, hlk1, hrid]
            rw [h]
            exact hK
          · cases hlk2 : alookup st.rooms rid with
            | none =>
              have h : (applyOp st (.unbind sid)).rooms = st.rooms := by
                simp [applyOp, disconnect_socket, hlk0, hpid, hlk1, hrid, hlk2]
              rw [h]
              exact hK
            | some room =>
              cases hgp : room.get_player pid with
              | none =>
                have h : (applyOp st (.unbind sid)).rooms = st.rooms := by
                  simp [applyOp, disconnect_socket, hlk0, hpid, hlk1, hrid, hlk2, hgp]
                rw [h]
                exact hK
              | some p0 =>
                have hKr := hK (rid, room) (alookup_mem hlk2)
                have h : (applyOp st (.unbind sid)).rooms
                    = upsert st.rooms rid { room with
                        players := updateFirst room.players pid
                          (fun q =>
                            { q with socket_id := none, status := .DISCONNECTED }) } := by
                  simp [applyOp, disconnect_socket, hlk0, hpid, hlk1, hrid, hlk2, hgp]
                rw [h]
                intro e he
                rcases mem_upsert_elim he with h' | h'
                · rw [h']
                  refine ⟨?_, hKr.2.1, ?_⟩
                  · simp only [updateFirst_length]
                    exact hKr.1
                  · simp only [updateFirst_length]
                    exact hKr.2.2
                · exact hK e h'
  | status pid s now =>
    cases hlk1 : alookup st.player_to_room pid with
    | none =>
      have h : (applyOp st (.status pid s now)).rooms = st.rooms := by
        simp [applyOp, update_player_status, hlk1]
      rw [h]
      exact hK
    | some rid =>
      by_cases hrid : rid = ""
      · have h : (applyOp st (.status pid s now)).rooms = st.rooms := by
          simp [applyOp, update_player_status, hlk1, hrid]
        rw [h]
        exact hK
      · cases hlk2 : alookup st.rooms rid with
        | none =>
          have h : (applyOp st (.status pid s now)).rooms = st.rooms := by
            simp [applyOp, update_player_status, hlk1, hrid, hlk2]
          rw [h]
          exact hK
        | some room =>
          cases hgp : room.get_player pid with
          | none =>
            have h : (applyOp st (.status pid s now)).rooms = st.rooms := by
              simp [applyOp, update_player_status, hlk1, hrid, hlk2, hgp]
            rw [h]
            exact hK
          | some p0 =>
            have hKr := hK (rid, room) (alookup_mem hlk2)
            have h : (applyOp st (.status pid s now)).rooms
                = upsert st.rooms rid { room with
                    players := updateFirst room.players pid
                      (fun q => { q with status := s }),
                    last_activity := now } := by
              simp [applyOp, update_player_status, hlk1, hrid, hlk2, hgp]
            rw [h]
            intro e he
            rcases mem_upsert_elim he with h' | h'
            · rw [h']
              refine ⟨?_, hKr.2.1, ?_⟩
              · simp only [updateFirst_length]
                exact hKr.1
              · simp only [updateFirst_length]
                exact hKr.2.2
            · exact hK e h'
  | removeRoom rid now =>
    cases hlk : alookup st.rooms rid with
    | none =>
      have h : (applyOp st (.removeRoom rid now)).rooms = st.rooms := by
        simp [applyOp, remove_room, hlk]
      rw [h]
      exact hK
    | some room =>
      have hfold : ∀ (ps : List Player) (s : MState),
          (∀ e ∈ s.rooms, e.2.players.length ≤ 2 ∧ e.2.max_players = 2 ∧
            (e.2.link_cable_connected = true ↔ e.2.players.length = 2)) →
          ∀ e ∈ (ps.foldl (fun s2 p => (leave_room s2 p.id now).1) s).rooms,
            e.2.players.length ≤ 2 ∧ e.2.max_players = 2 ∧
            (e.2.link_cable_connected = true ↔ e.2.players.length = 2) := by
        intro ps
        induction ps with
        | nil => intro s hs; exact hs
        | cons p rest ih =>
          intro s hs
          simp only [List.foldl_cons]
          exact ih _ (leave_room_link p.id now hs)
      have hF := hfold room.players st hK
      show ∀ e ∈ (remove_room st rid now).rooms, _
      simp only [remove_room, hlk]
      by_cases hs : (alookup (room.players.foldl
          (fun s p => (leave_room s p.id now).1) st).rooms rid).isSome
      · rw [if_pos hs]
        intro e he
        exact hF e (mem_eraseKey.mp he).1
      · rw [if_neg hs]
        exact hF

theorem add_player_success_eq (r : Room) (q : Player) (now : Int)
    (h : ¬ r.players.length ≥ r.max_players) :
    ((r.add_player q now).1).players = r.players ++ [(r.add_player q now).2.1] ∧
    ((r.add_player q now).1).max_players = r.max_players ∧
    ((r.add_player q now).2.1
      = if r.players.isEmpty then { q with is_host := true } else q) ∧
    (r.add_player q now).2.2 = true := by
  simp only [Room.add_player]
  rw [if_neg h]
  by_cases h2 : (r.players ++ [if r.players.isEmpty = true
      then { q with is_host := true } else q]).length = 2
  · rw [if_pos h2]
    simp
  · rw [if_neg h2]
    simp

/-- C4: after any sequence of registry operations starting from the fresh
manager state, every registered room's link-established flag is true
exactly when the room has two members. Join and leave recompute it on
every membership change, so the property holds at every observable point. -/
theorem link_flag_iff_two_members (ops : List Op) (rid : String) (r : Room)
    (hmem : (rid, r) ∈ (applyOps initState ops).rooms) :
    r.link_cable_connected = true ↔ r.players.length = 2 := by
  have hgen : ∀ (l : List Op) (st : MState),
      (∀ e ∈ st.rooms, e.2.players.length ≤ 2 ∧ e.2.max_players = 2 ∧
        (e.2.link_cable_connected = true ↔ e.2.players.length = 2)) →
      ∀ e ∈ (applyOps st l).rooms, e.2.players.length ≤ 2 ∧
        e.2.max_players = 2 ∧
        (e.2.link_cable_connected = true ↔ e.2.players.length = 2) := by
    intro l
    induction l with
    | nil => intro s hs; exact hs
    | cons op rest ih =>
      intro s hs
      exact ih (applyOp s op) (applyOp_link s op hs)
  have hinit : ∀ e ∈ initState.rooms, e.2.players.length ≤ 2 ∧
      e.2.max_players = 2 ∧
      (e.2.link_cable_connected = true ↔ e.2.players.length = 2) := by
    intro e he
    simp [initState] at he
  exact (hgen ops initState hinit (rid, r) hmem).2.2

theorem join_room_K3 (st : MState) (code pid playerName : String)
    (rom : Option String) (now : Int)
    (hK : ∀ e ∈ st.rooms, e.2.players.length ≤ e.2.max_players ∧ e.2.max_players = 2) :
    ∀ e ∈ (join_room st code pid playerName rom now).1.rooms,
      e.2.players.length ≤ e.2.max_players ∧ e.2.max_players = 2 := by
  cases hlk : alookup st.rooms (pyUpper code) with
  | none =>
    have h : (join_room st code pid playerName rom now).1.rooms = st.rooms := by
      simp [join_room, hlk]
    rw [h]
    exact hK
  | some room =>
    have hKr := hK (pyUpper code, room) (alookup_mem hlk)
    by_cases hact : room.is_active = false
    · have h : (join_room st code pid playerName rom now).1.rooms = st.rooms := by
        simp [join_room, hlk, hact]
      rw [h]
      exact hK
    · by_cases hfull : room.players.length ≥ room.max_players
      · have h : (join_room st code pid playerName rom now).1.rooms = st.rooms := by
          simp [join_room, hlk, hact, hfull]
        rw [h]
        exact hK
      · have hadd := add_player_success_eq
          (r := room)
          { id := pid, name := playerName, is_host := false,
            status := if romTruthy rom then .READY else .CONNECTING,
            socket_id := none, rom_loaded := romTruthy rom, rom_name := rom,
            save_state := none, joined_at := now } now hfull
        have h : (join_room st code pid playerName rom now).1.rooms
            = upsert st.rooms (pyUpper code)
                ((room.add_player
                  { id := pid, name := playerName, is_host := false,
                    status := if romTruthy rom then .READY else .CONNECTING,
                    socket_id := none, rom_loaded := romTruthy rom, rom_name := rom,
                    save_state := none, joined_at := now } now).1) := by
          simp [join_room, hlk, hact, hfull, hadd.2.2.2]
        rw [h]
        intro e he
        rcases mem_upsert_elim he with h' | h'
        · rw [h']
          refine ⟨?_, by rw [hadd.2.1]; exact hKr.2⟩
          rw [hadd.1, hadd.2.1]
          simp only [List.length_append, List.length_cons, List.length_nil]
          omega
        · exact hK e h'

/-- C3: member-list length never exceeds the capacity of 2 under any
sequence of `join_room` calls (given every registered room respects its
capacity of 2, as rooms created by the code do), and a join attempt on a
room already holding 2 members (looked up by case-insensitive code, still
active) returns the "Room is full" error and leaves the whole registry
state unchanged — so the (capacity+1)-th attempt fails with `Full`. -/
theorem join_room_capacity :
    (∀ (st : MState) (calls : List JoinCall) (rid : String) (r : Room),
      (∀ e ∈ st.rooms, e.2.players.length ≤ e.2.max_players ∧ e.2.max_players = 2) →
      (rid, r) ∈ (applyJoins st calls).rooms → r.players.length ≤ 2) ∧
    (∀ (st : MState) (code pid playerName : String) (rom : Option String)
      (now : Int) (r : Room),
      alookup st.rooms (pyUpper code) = some r → r.is_active = true →
      r.players.length = 2 → r.max_players = 2 →
      join_room st code pid playerName rom now = (st, none, none, "Room is full")) := by
  constructor
  · have hgen : ∀ (calls : List JoinCall) (st : MState),
        (∀ e ∈ st.rooms, e.2.players.length ≤ e.2.max_players ∧ e.2.max_players = 2) →
        ∀ e ∈ (applyJoins st calls).rooms,
          e.2.players.length ≤ e.2.max_players ∧ e.2.max_players = 2 := by
      intro calls
      induction calls with
      | nil => intro s hs; exact hs
      | cons c rest ih =>
        intro s hs
        exact ih _ (join_room_K3 s c.code c.pid c.playerName c.rom c.now hs)
    intro st calls rid r hK hmem
    have := hgen calls st hK (rid, r) hmem
    calc r.players.length ≤ r.max_players := this.1
      _ = 2 := this.2
  · intro st code pid playerName rom now r hlk hact hlen hmax
    have hfull : r.players.length ≥ r.max_players := by
      rw [hlen, hmax]
    simp [join_room, hlk, hact, hfull]

/-- C10 (implicit): a successful `join_room` appends a player that is not
host (the room already has a member), whose initial status and image flag
depend on the optional image id exactly as for the creator: `READY` and
loaded when a non-empty image id is supplied (the source tests
`if rom_name:`, Python truthiness, so an empty-string id counts as
absent), `CONNECTING` and not loaded otherwise. The returned player is the
last element of the returned room's member list. -/
theorem join_room_new_player (st : MState) (code pid playerName : String)
    (rom : Option String) (now : Int) (st2 : MState) (room2 : Room)
    (player2 : Player) (msg : String)
    (hne : ∀ e ∈ st.rooms, e.2.players ≠ [])
    (hjoin : join_room st code pid playerName rom now
      = (st2, some room2, some player2, msg)) :
    player2.is_host = false ∧
    player2.status = (if romTruthy rom then PlayerStatus.READY else PlayerStatus.CONNECTING) ∧
    player2.rom_loaded = romTruthy rom ∧
    player2.rom_name = rom ∧
    room2.players.getLast? = some player2 := by
  cases hlk : alookup st.rooms (pyUpper code) with
  | none =>
    rw [show join_room st code pid playerName rom now = (st, none, none, "Room not found")
      from by simp [join_room, hlk]] at hjoin
    simp at hjoin
  | some room =>
    by_cases hact : room.is_active = false
    · rw [show join_room st code pid playerName rom now
        = (st, none, none, "Room is no longer active") from by
          simp [join_room, hlk, hact]] at hjoin
      simp at hjoin
    · by_cases hfull : room.players.length ≥ room.max_players
      · rw [show join_room st code pid playerName rom now
          = (st, none, none, "Room is full") from by
            simp [join_room, hlk, hact, hfull]] at hjoin
        simp at hjoin
      · have hadd := add_player_success_eq room
          { id := pid, name := playerName, is_host := false,
            status := if romTruthy rom then .READY else .CONNECTING,
            socket_id := none, rom_loaded := romTruthy rom, rom_name := rom,
            save_state := none, joined_at := now } now hfull
        have hstep : join_room st code pid playerName rom now
            = ({ st with
                rooms := upsert st.rooms (pyUpper code)
                  ((room.add_player
                    { id := pid, name := playerName, is_host := false,
                      status := if romTruthy rom then .READY else .CONNECTING,
                      socket_id := none, rom_loaded := romTruthy rom, rom_name := rom,
                      save_state := none, joined_at := now } now).1),
                player_to_room := upsert st.player_to_room
                  ((room.add_player
                    { id := pid, name := playerName, is_host := false,
                      status := if romTruthy rom then .READY else .CONNECTING,
                      socket_id := none, rom_loaded := romTruthy rom, rom_name := rom,
                      save_state := none, joined_at := now } now).2.1).id
                  ((room.add_player
                    { id := pid, name := playerName, is_host := false,
                      status := if romTruthy rom then .READY else .CONNECTING,
                      socket_id := none, rom_loaded := romTruthy rom, rom_name := rom,
                      save_state := none, joined_at := now } now).1).id },
              some ((room.add_player
                { id := pid, name := playerName, is_host := false,
                  status := if romTruthy rom then .READY else .CONNECTING,
                  socket_id := none, rom_loaded := romTruthy rom, rom_name := rom,
                  save_state := none, joined_at := now } now).1),
              some ((room.add_player
                { id := pid, name := playerName, is_host := false,
                  status := if romTruthy rom then .READY else .CONNECTING,
                  socket_id := none, rom_loaded := romTruthy rom, rom_name := rom,
                  save_state := none, joined_at := now } now).2.1),
              "Successfully joined room") := by
          simp [join_room, hlk, hact, hfull, hadd.2.2.2]
        rw [hstep] at hjoin
        simp only [Prod.mk.injEq] at hjoin
        obtain ⟨_, hroom, hplayer, _⟩ := hjoin
        have hroomne : room.players ≠ [] := hne (pyUpper code, room) (alookup_mem hlk)
        have hnotempty : room.players.isEmpty = false := by
          cases hps : room.players with
          | nil => exact absurd hps hroomne
          | cons a as => rfl
        have hpl : (room.add_player
            { id := pid, name := playerName, is_host := false,
              status := if romTruthy rom then .READY else .CONNECTING,
              socket_id := none, rom_loaded := romTruthy rom, rom_name := rom,
              save_state := none, joined_at := now } now).2.1
            = { id := pid, name := playerName, is_host := false,
                status := if romTruthy rom then .READY else .CONNECTING,
                socket_id := none, rom_loaded := romTruthy rom, rom_name := rom,
                save_state := none, joined_at := now } := by
          rw [hadd.2.2.1, hnotempty]
          simp
        have hroomeq : room2 = (room.add_player
            { id := pid, name := playerName, is_host := false,
              status := if romTruthy rom then .READY else .CONNECTING,
              socket_id := none, rom_loaded := romTruthy rom, rom_name := rom,
              save_state := none, joined_at := now } now).1 :=
          (Option.some.inj hroom).symm
        have hplayereq : player2 = (room.add_player
            { id := pid, name := playerName, is_host := false,
              status := if romTruthy rom then .READY else .CONNECTING,
              socket_id := none, rom_loaded := romTruthy rom, rom_name := rom,
              save_state := none, joined_at := now } now).2.1 :=
          (Option.some.inj hplayer).symm
        subst hroomeq
        subst hplayereq
        rw [hpl, hadd.1, hpl]
        refine ⟨rfl, rfl, rfl, rfl, ?_⟩
        simp

/-- C5: when the current host leaves via `leave_room`, the host flag and
host id move to the first remaining member in join order, which under the
join-order/timestamp discipline (the member list is sorted by join
timestamp, as append-ordered joins with a monotone clock produce) is the
remaining member with the earliest join timestamp; afterwards exactly one
member has the host flag. If no member remains, the room is deleted and a
`get_room` on its (uppercase) code reports not-found. -/
theorem leave_room_host_reassign (st : MState) (pid : String) (now : Int)
    (rid : String) (r : Room)
    (hlk1 : alookup st.player_to_room pid = some rid) (hrid : rid ≠ "")
    (hlk2 : alookup st.rooms rid = some r)
    (hhost : r.host_id = pid)
    (honehost : ∀ q ∈ r.players, (q.is_host = true ↔ q.id = pid))
    (hsorted : r.players.Pairwise (fun a b => a.joined_at ≤ b.joined_at)) :
    (r.players.filter (fun q => q.id != pid) = [] →
      (leave_room st pid now).2 = none ∧
      alookup (leave_room st pid now).1.rooms rid = none ∧
      (pyUpper rid = rid → get_room (leave_room st pid now).1 rid = none)) ∧
    (∀ q0 qs, r.players.filter (fun q => q.id != pid) = q0 :: qs →
      ∃ r2, alookup (leave_room st pid now).1.rooms rid = some r2 ∧
        (leave_room st pid now).2 = some r2 ∧
        r2.players = { q0 with is_host := true } :: qs ∧
        r2.host_id = q0.id ∧
        q0 ∈ r.players ∧ q0.id ≠ pid ∧
        (∀ q ∈ r2.players, (q.is_host = true ↔ q = { q0 with is_host := true })) ∧
        (∀ q ∈ r2.players, ({ q0 with is_host := true }).joined_at ≤ q.joined_at)) := by
  constructor
  · intro hempty
    have hisE : (r.remove_player pid now).2 = true := by
      rw [(remove_player_fields r pid now).2.2.2, hempty]
      rfl
    have hstep : (leave_room st pid now)
        = ({ st with
            rooms := eraseKey (upsert st.rooms rid (r.remove_player pid now).1) rid,
            player_to_room := eraseKey st.player_to_room pid,
            socket_to_player := eraseFirstVal st.socket_to_player pid }, none) := by
      simp [leave_room, hlk1, hrid, hlk2, hisE]
    rw [hstep]
    refine ⟨rfl, ?_, ?_⟩
    · rw [alookup_eraseKey, if_pos rfl]
    · intro hupper
      show alookup _ (pyUpper rid) = none
      rw [hupper, alookup_eraseKey, if_pos rfl]
  · intro q0 qs hfil
    have hisE : (r.remove_player pid now).2 = false := by
      rw [(remove_player_fields r pid now).2.2.2, hfil]
      rfl
    have hq0mem : q0 ∈ r.players := by
      have : q0 ∈ r.players.filter (fun q => q.id != pid) := by
        rw [hfil]
        exact List.mem_cons_self _ _
      exact (List.mem_filter.mp this).1
    have hq0ne : q0.id ≠ pid := by
      have : q0 ∈ r.players.filter (fun q => q.id != pid) := by
        rw [hfil]
        exact List.mem_cons_self _ _
      simpa [bne_iff_ne] using (List.mem_filter.mp this).2
    have hrp : (r.remove_player pid now).1
        = { r with
            players := { q0 with is_host := true } :: qs,
            last_activity := now,
            link_cable_connected :=
              if (q0 :: qs).length < 2 then false else r.link_cable_connected,
            host_id := q0.id } := by
      simp only [Room.remove_player, hfil, hhost]
      simp
    have hstep : (leave_room st pid now)
        = ({ st with
            rooms := upsert st.rooms rid (r.remove_player pid now).1,
            player_to_room := eraseKey st.player_to_room pid,
            socket_to_player := eraseFirstVal st.socket_to_player pid },
          some (r.remove_player pid now).1) := by
      simp [leave_room, hlk1, hrid, hlk2, hisE]
    rw [hstep]
    refine ⟨(r.remove_player pid now).1, ?_, rfl, ?_, ?_, hq0mem, hq0ne, ?_, ?_⟩
    · rw [alookup_upsert, if_pos rfl]
    · rw [hrp]
    · rw [hrp]
    · intro q hq
      rw [hrp] at hq
      simp only at hq
      rcases List.mem_cons.mp hq with h' | h'
      · subst h'
        simp
      · have hqs : q ∈ r.players.filter (fun q2 => q2.id != pid) := by
          rw [hfil]
          exact List.mem_cons_of_mem _ h'
        have hqmem : q ∈ r.players := (List.mem_filter.mp hqs).1
        have hqne : q.id ≠ pid := by
          simpa [bne_iff_ne] using (List.mem_filter.mp hqs).2
        have hqh : q.is_host = false := by
          rcases Bool.eq_false_or_eq_true q.is_host with h | h
          · exact absurd ((honehost q hqmem).mp h) hqne
          · exact h
        constructor
        · intro hh
          rw [hqh] at hh
          cases hh
        · intro hh
          have : q.is_host = true := by rw [hh]
          rw [hqh] at this
          cases this
    · intro q hq
      rw [hrp] at hq
      simp only at hq
      have hfilsorted : (r.players.filter (fun q2 => q2.id != pid)).Pairwise
          (fun a b => a.joined_at ≤ b.joined_at) :=
        hsorted.sublist (List.filter_sublist _)
      rw [hfil] at hfilsorted
      rcases List.mem_cons.mp hq with h' | h'
      · rw [h']
      · exact (List.pairwise_cons.mp hfilsorted).1 q h'

theorem disconnect_socket_spec (st : MState) (sid pid rid : String) (room : Room)
    (p0 : Player) (hpid : pid ≠ "")
    (h0 : alookup st.socket_to_player sid = some pid)
    (h1 : alookup st.player_to_room pid = some rid) (hrid : rid ≠ "")
    (h2 : alookup st.rooms rid = some room)
    (h3 : room.get_player pid = some p0) :
    disconnect_socket st sid
      = ({ st with
          rooms := upsert st.rooms rid { room with
            players := updateFirst room.players pid
              (fun q => { q with socket_id := none, status := .DISCONNECTED }) },
          socket_to_player := eraseKey st.socket_to_player sid },
        some ({ room with
            players := updateFirst room.players pid
              (fun q => { q with socket_id := none, status := .DISCONNECTED }) },
          { p0 with socket_id := none, status := .DISCONNECTED })) := by
  simp [disconnect_socket, h0, hpid, h1, hrid, h2, h3]

/-- C6: for a player registered in a room, `connect_socket` followed
immediately by `disconnect_socket` on the same connection id succeeds and
leaves the player present in its room — `get_player_room` still resolves
it — with status `DISCONNECTED` and no bound connection handle, while the
connection-id entry is removed from the socket index. -/
theorem bind_unbind_roundtrip (st : MState) (sid pid : String) (now : Int)
    (rid : String) (room : Room) (p0 : Player)
    (hpid : pid ≠ "")
    (hlk1 : alookup st.player_to_room pid = some rid) (hrid : rid ≠ "")
    (hlk2 : alookup st.rooms rid = some room)
    (hgp : room.get_player pid = some p0) :
    (connect_socket st sid pid now).2 = true ∧
    alookup (disconnect_socket (connect_socket st sid pid now).1 sid).1.socket_to_player
      sid = none ∧
    (get_player_room (disconnect_socket (connect_socket st sid pid now).1 sid).1
      pid).isSome ∧
    (∀ r2, get_player_room (disconnect_socket (connect_socket st sid pid now).1 sid).1
        pid = some r2 →
      r2.get_player pid
        = some { p0 with socket_id := none, status := PlayerStatus.DISCONNECTED } ∧
      { p0 with socket_id := none, status := PlayerStatus.DISCONNECTED }
        ∈ r2.players) := by
  have hstep1 : connect_socket st sid pid now
      = ({ st with
          rooms := upsert st.rooms rid { room with
            players := updateFirst room.players pid
              (fun q => { q with socket_id := some sid, status := .CONNECTED }),
            last_activity := now },
          socket_to_player := upsert st.socket_to_player sid pid }, true) := by
    simp [connect_socket, hlk1, hrid, hlk2, hgp]
  have hAstp : (connect_socket st sid pid now).1.socket_to_player
      = upsert st.socket_to_player sid pid := by rw [hstep1]
  have hAptr : (connect_socket st sid pid now).1.player_to_room
      = st.player_to_room := by rw [hstep1]
  have hArooms : (connect_socket st sid pid now).1.rooms
      = upsert st.rooms rid { room with
          players := updateFirst room.players pid
            (fun q => { q with socket_id := some sid, status := .CONNECTED }),
          last_activity := now } := by rw [hstep1]
  have hgp1 : Room.get_player { room with
      players := updateFirst room.players pid
        (fun q => { q with socket_id := some sid, status := .CONNECTED }),
      last_activity := now } pid
      = some { p0 with socket_id := some sid, status := .CONNECTED } :=
    getPlayerL_updateFirst _ (fun q => rfl) hgp
  have hstep2 := disconnect_socket_spec (connect_socket st sid pid now).1 sid pid rid
    { room with
      players := updateFirst room.players pid
        (fun q => { q with socket_id := some sid, status := .CONNECTED }),
      last_activity := now }
    { p0 with socket_id := some sid, status := .CONNECTED }
    hpid
    (by rw [hAstp, alookup_upsert, if_pos rfl])
    (by rw [hAptr]; exact hlk1)
    hrid
    (by rw [hArooms, alookup_upsert, if_pos rfl])
    hgp1
  have hBstp : (disconnect_socket (connect_socket st sid pid now).1 sid).1.socket_to_player
      = eraseKey (connect_socket st sid pid now).1.socket_to_player sid := by
    rw [hstep2]
  have hBptr : (disconnect_socket (connect_socket st sid pid now).1 sid).1.player_to_room
      = (connect_socket st sid pid now).1.player_to_room := by
    rw [hstep2]
  have hBrooms : (disconnect_socket (connect_socket st sid pid now).1 sid).1.rooms
      = upsert (connect_socket st sid pid now).1.rooms rid
          { room with
            players := updateFirst (updateFirst room.players pid
                (fun q => { q with socket_id := some sid, status := .CONNECTED })) pid
              (fun q => { q with socket_id := none, status := .DISCONNECTED }),
            last_activity := now } := by
    rw [hstep2]
  have hlkB : alookup
      (disconnect_socket (connect_socket st sid pid now).1 sid).1.rooms rid
      = some { room with
          players := updateFirst (updateFirst room.players pid
              (fun q => { q with socket_id := some sid, status := .CONNECTED })) pid
            (fun q => { q with socket_id := none, status := .DISCONNECTED }),
          last_activity := now } := by
    rw [hBrooms, alookup_upsert, if_pos rfl]
  have hgpr : get_player_room
      (disconnect_socket (connect_socket st sid pid now).1 sid).1 pid
      = some { room with
          players := updateFirst (updateFirst room.players pid
              (fun q => { q with socket_id := some sid, status := .CONNECTED })) pid
            (fun q => { q with socket_id := none, status := .DISCONNECTED }),
          last_activity := now } := by
    simp only [get_player_room, hBptr, hAptr, hlk1, if_neg hrid]
    exact hlkB
  have hgpA : getPlayerL (updateFirst room.players pid
      (fun q => { q with socket_id := some sid, status := .CONNECTED })) pid
      = some { p0 with socket_id := some sid, status := PlayerStatus.CONNECTED } :=
    getPlayerL_updateFirst _ (fun q => rfl) hgp
  have hgp2 : getPlayerL (updateFirst (updateFirst room.players pid
      (fun q => { q with socket_id := some sid, status := .CONNECTED })) pid
      (fun q => { q with socket_id := none, status := .DISCONNECTED })) pid
      = some { p0 with socket_id := none, status := PlayerStatus.DISCONNECTED } := by
    have h2 := getPlayerL_updateFirst
      (fun q => { q with socket_id := none, status := PlayerStatus.DISCONNECTED })
      (fun q => rfl) hgpA
    exact h2
  refine ⟨by rw [hstep1], ?_, ?_, ?_⟩
  · rw [hBstp, alookup_eraseKey, if_pos rfl]
  · rw [hgpr]
    rfl
  · intro r2 hr2
    rw [hgpr] at hr2
    have hr2eq := (Option.some.inj hr2).symm
    subst hr2eq
    constructor
    · exact hgp2
    · exact (getPlayerL_some hgp2).1

theorem findOther_some {ps : List Player} {senderId : String} {p : Player}
    {s : String} (h : findOther ps senderId = some (p, s)) :
    p ∈ ps ∧ p.id ≠ senderId ∧ p.socket_id = some s ∧ s ≠ "" := by
  induction ps with
  | nil => simp [findOther] at h
  | cons q rest ih =>
    cases hq : q.socket_id with
    | none =>
      simp only [findOther, hq] at h
      obtain ⟨h1, h2, h3, h4⟩ := ih h
      exact ⟨List.mem_cons_of_mem _ h1, h2, h3, h4⟩
    | some s0 =>
      simp only [findOther, hq] at h
      by_cases hcond : q.id ≠ senderId ∧ s0 ≠ ""
      · rw [if_pos hcond] at h
        injection h with h
        injection h with h1 h2
        subst h1
        subst h2
        exact ⟨List.mem_cons_self _ _, hcond.1, hq, hcond.2⟩
      · rw [if_neg hcond] at h
        obtain ⟨h1, h2, h3, h4⟩ := ih h
        exact ⟨List.mem_cons_of_mem _ h1, h2, h3, h4⟩

theorem connect_socket_fail (st : MState) (sid pid : String) (now : Int)
    (h : (connect_socket st sid pid now).2 = false) :
    (connect_socket st sid pid now).1 = st := by
  cases hlk1 : alookup st.player_to_room pid with
  | none => simp [connect_socket, hlk1]
  | some rid =>
    by_cases hrid : rid = ""
    · simp [connect_socket, hlk1, hrid]
    · cases hlk2 : alookup st.rooms rid with
      | none => simp [connect_socket, hlk1, hrid, hlk2]
      | some room =>
        cases hgp : room.get_player pid with
        | none => simp [connect_socket, hlk1, hrid, hlk2, hgp]
        | some p0 =>
          rw [show (connect_socket st sid pid now).2 = true from by
            simp [connect_socket, hlk1, hrid, hlk2, hgp]] at h
          cases h

/-- C7: for a `link_cable_data` message (with an object payload) whose
sender resolves through the connection index, the dispatcher sends exactly
one error reply to the sender and forwards nothing when the room's
link-established flag is false or `findOther` finds no second member with
a truthy bound handle; otherwise it forwards exactly one message carrying
the inbound action, payload and timestamp plus the sender's name to the
other member's connection. In both cases the registry state is unchanged. -/
theorem link_cable_relay_policy (st : MState) (sid : String) (now : Int)
    (g : String → Option String) (room : Room) (sender : Player)
    (hres : get_player_by_socket st sid = some (room, sender)) :
    ((room.link_cable_connected = false ∨ findOther room.players sender.id = none) →
      handle_message st sid now (.msg (some "link_cable_data") (.obj g))
        = (st, [(sid, .errorMsg (if room.link_cable_connected then
            "No other player connected" else "Link cable not connected"))])) ∧
    (∀ other s, room.link_cable_connected = true →
      findOther room.players sender.id = some (other, s) →
      other ∈ room.players ∧ other.id ≠ sender.id ∧ other.socket_id = some s ∧
        s ≠ "" ∧
      handle_message st sid now (.msg (some "link_cable_data") (.obj g))
        = (st, [(s, .linkCable (g "action") (g "payload") sender.name
            (g "timestamp"))])) := by
  have hroute : ∀ d, routeMsg st sid now (some "link_cable_data") d
      = handle_link_cable_data st sid d := by
    intro d
    rfl
  constructor
  · intro hcond
    rcases hcond with hlink | hother
    · have hh : handle_link_cable_data st sid (.obj g)
          = .ok (st, [(sid, .errorMsg "Link cable not connected")]) := by
        simp [handle_link_cable_data, hres, hlink]
      simp [handle_message, hroute, hh, hlink]
    · by_cases hlink : room.link_cable_connected = false
      · have hh : handle_link_cable_data st sid (.obj g)
            = .ok (st, [(sid, .errorMsg "Link cable not connected")]) := by
          simp [handle_link_cable_data, hres, hlink]
        simp [handle_message, hroute, hh, hlink]
      · have hlink' : room.link_cable_connected = true := by
          rcases Bool.eq_false_or_eq_true room.link_cable_connected with h | h
          · exact h
          · exact absurd h hlink
        have hh : handle_link_cable_data st sid (.obj g)
            = .ok (st, [(sid, .errorMsg "No other player connected")]) := by
          simp [handle_link_cable_data, hres, hlink', hother]
        simp [handle_message, hroute, hh, hlink']
  · intro other s hlink hfind
    obtain ⟨hmem, hne, hsock, hsne⟩ := findOther_some hfind
    refine ⟨hmem, hne, hsock, hsne, ?_⟩
    have hh : handle_link_cable_data st sid (.obj g)
        = .ok (st, [(s, .linkCable (g "action") (g "payload") sender.name
            (g "timestamp"))]) := by
      simp [handle_link_cable_data, hres, hlink, hfind, dataGet]
      rfl
    simp [handle_message, hroute, hh]

theorem handle_join_room_eq (st : MState) (sid : String) (now : Int)
    (g : String → Option String) :
    handle_join_room st sid now (.obj g)
      = match g "player_id" with
        | none => .ok (st, [(sid, .errorMsg "Player ID required")])
        | some pid =>
          if pid = "" then .ok (st, [(sid, .errorMsg "Player ID required")])
          else if (connect_socket st sid pid now).2 then
            match get_player_room (connect_socket st sid pid now).1 pid with
            | some room => .ok ((connect_socket st sid pid now).1,
                broadcast_to_room (connect_socket st sid pid now).1 room.id
                  .playerJoined (some sid) ++ [(sid, .roomJoined)])
            | none => .ok ((connect_socket st sid pid now).1, [])
          else .ok ((connect_socket st sid pid now).1,
            [(sid, .errorMsg "Failed to join room")]) := rfl

/-- C8: the dispatcher's failure policy. A `join_room` message whose
`player_id` field is missing or falsy yields one "Player ID required"
error to the sender; a `join_room` whose `connect_socket` bind fails
yields one "Failed to join room" error to the sender; any handler run that
raises (modelled by `routeMsg` returning the exceptional value, e.g. a
non-mapping `data` payload) and any non-mapping top-level message are
caught at the dispatch boundary and yield one generic error to the sender.
In each case nothing is sent to any other connection and the registry
state is unchanged, so the sender's transport is never affected. -/
theorem dispatcher_failure_policy :
    (∀ (st : MState) (sid : String) (now : Int) (g : String → Option String),
      (g "player_id" = none ∨ g "player_id" = some "") →
      handle_message st sid now (.msg (some "join_room") (.obj g))
        = (st, [(sid, .errorMsg "Player ID required")])) ∧
    (∀ (st : MState) (sid : String) (now : Int) (g : String → Option String)
      (pid : String), g "player_id" = some pid → pid ≠ "" →
      (connect_socket st sid pid now).2 = false →
      handle_message st sid now (.msg (some "join_room") (.obj g))
        = (st, [(sid, .errorMsg "Failed to join room")])) ∧
    (∀ (st : MState) (sid : String) (now : Int) (ty : Option String) (d : DataVal),
      routeMsg st sid now ty d = .error () →
      handle_message st sid now (.msg ty d)
        = (st, [(sid, .errorMsg "Failed to process message")])) ∧
    (∀ (st : MState) (sid : String) (now : Int),
      handle_message st sid now .bad
        = (st, [(sid, .errorMsg "Failed to process message")])) := by
  refine ⟨?_, ?_, ?_, fun st sid now => rfl⟩
  · intro st sid now g hg
    have hroute : routeMsg st sid now (some "join_room") (.obj g)
        = handle_join_room st sid now (.obj g) := rfl
    rcases hg with hg | hg
    · have hh : handle_join_room st sid now (.obj g)
          = .ok (st, [(sid, .errorMsg "Player ID required")]) := by
        rw [handle_join_room_eq, hg]
      simp [handle_message, hroute, hh]
    · have hh : handle_join_room st sid now (.obj g)
          = .ok (st, [(sid, .errorMsg "Player ID required")]) := by
        rw [handle_join_room_eq, hg]
        rfl
      simp [handle_message, hroute, hh]
  · intro st sid now g pid hg hpid hfail
    have hroute : routeMsg st sid now (some "join_room") (.obj g)
        = handle_join_room st sid now (.obj g) := rfl
    have hst := connect_socket_fail st sid pid now hfail
    have hh : handle_join_room st sid now (.obj g)
        = .ok (st, [(sid, .errorMsg "Failed to join room")]) := by
      rw [handle_join_room_eq, hg]
      simp only []
      rw [if_neg hpid, hfail]
      simp only [Bool.false_eq_true, if_false]
      rw [hst]
    simp [handle_message, hroute, hh]
  · intro st sid now ty d herr
    simp [handle_message, herr]

/-- Witness for C3: on the two-member room, a further join attempt (by
case-insensitive code) returns the Full error and changes nothing, and the
member count stays at 2. -/
theorem join_room_capacity_witness :
    roomAB.players.length ≤ 2 ∧
    join_room stAB "rab" "P3" "Brock" none 5 = (stAB, none, none, "Room is full") :=
  ⟨join_room_capacity.1 stAB [⟨"rab", "P3", "Brock", none, 5⟩] "RAB" roomAB
      (by decide) (by decide),
   join_room_capacity.2 stAB "rab" "P3" "Brock" none 5 roomAB (by decide)
      (by decide) (by decide) (by decide)⟩

/-- Witness for C4: after creating a room from the fresh state, the stored
room's link flag agrees with having two members. -/
theorem link_flag_iff_two_members_witness :
    (("R1", (create_room initState "R1" "P1" "Ash" none 0).2.1)
        ∈ (applyOps initState [Op.create "R1" "P1" "Ash" none 0]).rooms) ∧
    ((create_room initState "R1" "P1" "Ash" none 0).2.1.link_cable_connected = true ↔
      (create_room initState "R1" "P1" "Ash" none 0).2.1.players.length = 2) :=
  ⟨by decide,
   link_flag_iff_two_members [Op.create "R1" "P1" "Ash" none 0] "R1"
     (create_room initState "R1" "P1" "Ash" none 0).2.1 (by decide)⟩

/-- Witness for C5: the host Ash leaves the two-member room; the room that
remains has Misty as its only, host-flagged member and host id P2. -/
theorem leave_room_host_reassign_witness :
    ((leave_room stAB "P1" 5).2).map Room.host_id = some "P2" ∧
    ((leave_room stAB "P1" 5).2).map Room.players
      = some [{ playerB with is_host := true }] := by
  obtain ⟨r2, h1, h2, h3, h4, _⟩ :=
    (leave_room_host_reassign stAB "P1" 5 "RAB" roomAB (by decide) (by decide)
      (by decide) (by decide) (by decide) (by decide)).2 playerB [] (by decide)
  constructor
  · rw [h2]
    show some r2.host_id = some "P2"
    rw [h4]
    rfl
  · rw [h2]
    show some r2.players = some [{ playerB with is_host := true }]
    rw [h3]

/-- Witness for C6: binding a fresh socket S9 to Misty and immediately
unbinding it keeps her in the room, disconnected and unbound, with the S9
index entry gone. -/
theorem bind_unbind_roundtrip_witness :
    (connect_socket stAB "S9" "P2" 7).2 = true ∧
    alookup (disconnect_socket (connect_socket stAB "S9" "P2" 7).1
      "S9").1.socket_to_player "S9" = none ∧
    (get_player_room (disconnect_socket (connect_socket stAB "S9" "P2" 7).1
      "S9").1 "P2").isSome := by
  have h := bind_unbind_roundtrip stAB "S9" "P2" 7 "RAB" roomAB playerB
    (by decide) (by decide) (by decide) (by decide) (by decide)
  exact ⟨h.1, h.2.1, h.2.2.1⟩

/-- Witness for C7: Ash sends link-cable data in the linked room; exactly
one message with the action, the default payload and Ash's name is
forwarded to Misty's connection, and the registry is unchanged. -/
theorem link_cable_relay_policy_witness :
    handle_message stAB "S1" 0 (.msg (some "link_cable_data") (.obj gAction))
      = (stAB, [("S2", .linkCable (some "trade_request") none "Ash" none)]) := by
  have h := (link_cable_relay_policy stAB "S1" 0 gAction roomAB playerA
    (by decide)).2 playerB "S2" (by decide) (by decide)
  exact h.2.2.2.2

/-- Witness for C8: the three error paths on concrete inputs — missing
player id, failing bind on the empty registry, and a non-mapping `data`
payload — plus a non-mapping top-level message, each produce exactly the
expected single error reply to the sender with the state unchanged. -/
theorem dispatcher_failure_policy_witness :
    handle_message initState "S1" 0 (.msg (some "join_room") (.obj gEmpty))
      = (initState, [("S1", .errorMsg "Player ID required")]) ∧
    handle_message initState "S1" 0 (.msg (some "join_room") (.obj gP1))
      = (initState, [("S1", .errorMsg "Failed to join room")]) ∧
    handle_message initState "S1" 0 (.msg (some "join_room") .nonDict)
      = (initState, [("S1", .errorMsg "Failed to process message")]) ∧
    handle_message initState "S1" 0 .bad
      = (initState, [("S1", .errorMsg "Failed to process message")]) :=
  ⟨dispatcher_failure_policy.1 initState "S1" 0 gEmpty (Or.inl rfl),
   dispatcher_failure_policy.2.1 initState "S1" 0 gP1 "P1" rfl (by decide) (by decide),
   dispatcher_failure_policy.2.2.1 initState "S1" 0 (some "join_room") .nonDict rfl,
   dispatcher_failure_policy.2.2.2 initState "S1" 0⟩

/-- Witness for C9: the room whose last activity is two hours before the
sweep is evicted — its entry, its code lookup and its member's player
index entry are all gone after one cycle. -/
theorem sweep_cycle_eviction_witness :
    alookup (sweep_cycle stStale 7200).rooms "R9" = none ∧
    get_room (sweep_cycle stStale 7200) "R9" = none ∧
    alookup (sweep_cycle stStale 7200).player_to_room "P9" = none := by
  have h := (sweep_cycle_eviction stStale 7200 "R9" roomStale playerStale ("X", "Y")
    (by unfold RegistryInv; decide) (by decide)).1 (by decide)
  exact ⟨h.1, h.2.1 (by decide), (h.2.2 (by decide)).1⟩

/-- Witness for C10: Blue joins the one-member room R9 supplying an image
id; the appended player is not host, starts READY with the image loaded,
and sits at the end of the member list. -/
theorem join_room_new_player_witness :
    ((roomStale.add_player playerJoin 3).2.1).is_host = false ∧
    ((roomStale.add_player playerJoin 3).2.1).status = PlayerStatus.READY ∧
    ((roomStale.add_player playerJoin 3).2.1).rom_loaded = true ∧
    ((roomStale.add_player playerJoin 3).1).players.getLast?
      = some (roomStale.add_player playerJoin 3).2.1 := by
  have h := join_room_new_player stStale "R9" "P3" "Blue" (some "blue") 3
    (join_room stStale "R9" "P3" "Blue" (some "blue") 3).1
    ((roomStale.add_player playerJoin 3).1)
    ((roomStale.add_player playerJoin 3).2.1)
    "Successfully joined room"
    (by decide) (by decide)
  refine ⟨h.1, ?_, ?_, h.2.2.2.2⟩
  · rw [h.2.1]
    rfl
  · rw [h.2.2.1]
    rfl
